import Mathlib

/-!
Approver / discarder compiler of the `open` hook points.

A shallow embedding of `pkg/security/probe/open.go`: the `vfs_open` hook point's
`OnNewApprovers` / `OnNewDiscarders` callbacks and the field handlers they
dispatch to, over an explicit model of the kernel tables of a `Probe`.

Go strings are modelled by `String` (valid UTF-8 only), `len` by the UTF-8 byte
size, byte slices by lists of naturals below 256, Go `int` by `Int`, and the
`error` result together with a possible run-time panic by `Outcome`.
Every handler returns the outcome together with the probe state it leaves.
-/

namespace OpenProbe

deriving instance DecidableEq for Except

/-- A byte slice (`[]byte`): each element is a byte value. -/
abbrev Bytes := List Nat

/-- One `table.Set(key, value)` call on the table named `table`. -/
structure SetCall where
  table : String
  key : Bytes
  value : Bytes
deriving DecidableEq, Repr

/-- What is outside `open.go` and is taken as a parameter: the two constants the
handlers read, the behaviour of the kernel when a table is written (the error
`table.Set` returns, if any, given the calls made so far), and the file system
seen by `os.Stat` (the inode number, or the error). -/
structure Env where
  BASENAME_FILTER_SIZE : Nat
  DentryPathKeyNotFound : String
  setError : List SetCall → SetCall → Option String
  osStat : String → Except String Nat

/-- The tables of a probe (table name, then key, to the stored value) and the
record of every `Set` call made on them, oldest first. -/
structure Probe where
  tables : String → Bytes → Option Bytes
  calls : List SetCall

/-- A Go `error` result (`nil` or an error carrying a message), or a panic
(a failed type assertion `x.(T)`). -/
inductive Outcome where
  | nil
  | error (msg : String)
  | panic (msg : String)
deriving DecidableEq, Repr

/-- A rule-engine filter value: the dynamically typed `Value interface{}`. -/
inductive FilterValue where
  | str (s : String)
  | int (n : Int)
deriving DecidableEq, Repr

/-- The type `rules.FilterValues`: a slice of filter values. -/
abbrev FilterValues := List FilterValue

/-- The type `rules.Approvers`: field name to values; the list order is the order in which
`range` visits the map. -/
abbrev Approvers := List (String × FilterValues)

/-- The record `Discarder{Field, Value}`. -/
structure Discarder where
  Field : String
  Value : FilterValue
deriving DecidableEq, Repr

/-- OpenTables - eBPF tables used by the kProbes of open. -/
def OpenTables : List String :=
  ["open_policy", "open_basename_approvers", "open_basename_discarders",
   "open_flags_approvers", "open_flags_discarders", "open_process_inode_approvers"]

/-- A probe with every table empty and no call made. -/
def Probe.empty : Probe := ⟨fun _ _ => none, []⟩

/-- Upsert of one entry of one table. -/
def upsert (t : String → Bytes → Option Bytes) (table : String) (key value : Bytes) :
    String → Bytes → Option Bytes :=
  fun n k => if n = table ∧ k = key then some value else t n k

/-- Modelled from the spec: `probe.Table(name).Set(key, value)` is not in the
sources at hand; `set(key, value) -> Ok | Error(TableWriteFailed)` upserts the
entry, and a rejected write changes no table. Every call is recorded. -/
def Table.Set (env : Env) (p : Probe) (table : String) (key value : Bytes) : Outcome × Probe :=
  match env.setError p.calls ⟨table, key, value⟩ with
  | some msg => (Outcome.error msg, ⟨p.tables, p.calls ++ [⟨table, key, value⟩]⟩)
  | none => (Outcome.nil, ⟨upsert p.tables table key value, p.calls ++ [⟨table, key, value⟩]⟩)

/-- Modelled from the spec: `zeroInt8`, the one-byte presence sentinel. -/
def zeroInt8 : Bytes := [0]

/-- Modelled from the spec: `zeroInt32`, the reserved zero key of a flags table. -/
def zeroInt32 : Bytes := [0, 0, 0, 0]

/-- The conversion `uint32(value)` of a Go `int`. -/
def uint32 (value : Int) : Nat := (value % 2 ^ 32).toNat

/-- The type `Uint32KFilter`: a 32-bit accumulator. -/
structure Uint32KFilter where
  value : Nat
deriving DecidableEq, Repr

/-- Modelled from the spec: `Uint32KFilter.Bytes` is not in the sources at hand;
the accumulator bytes are the four bytes of the value, least significant first. -/
def Uint32KFilter.Bytes (k : Uint32KFilter) : Bytes :=
  [k.value % 256, k.value / 256 % 256, k.value / 65536 % 256, k.value / 16777216 % 256]

/-- Reading the four accumulator bytes back as a number. -/
def Uint32KFilter.ofBytes : List Nat → Option Nat
  | [a, b, c, d] => some (a + 256 * b + 65536 * c + 16777216 * d)
  | _ => none

/-- Modelled from the spec: the zero value of `Uint8KFilter` as bytes (a fixed
sentinel value of one byte). -/
def Uint8KFilter.Bytes : Bytes := [0]

/-- Modelled from the spec: `Int64ToKey`, the fixed-width (eight bytes, least
significant first) encoding of a 64-bit integer. -/
def Int64ToKey (v : Nat) : Bytes :=
  (List.range 8).map (fun i => v % 2 ^ 64 / 256 ^ i % 256)

/-- Go `len(s)`: the number of bytes of the string. -/
def len (s : String) : Nat := s.utf8ByteSize

/-- The bytes of a Go string. -/
def stringBytes (s : String) : Bytes :=
  s.data.flatMap (fun c => (String.utf8EncodeChar c).map UInt8.toNat)

/-- Modelled from the spec: `StringToKey(str, size)` is not in the sources at
hand; `encode_string_key(value, max_len)` right-pads the bytes of the value to
the fixed width and fails when `len(value) > max_len`, never truncating. -/
def StringToKey (str : String) (size : Nat) : Except String Bytes :=
  if len str > size then Except.error "string too long"
  else Except.ok (stringBytes str ++ List.replicate (size - len str) 0)

/-- The loop of `lastSlash`: `i` runs down from `n - 1` while `s[i] != '/'`;
the result is the final `i`, `-1` when no slash is found. -/
def lastSlashFrom (s : List Char) : Nat → Int
  | 0 => -1
  | i + 1 => if s.getD i ' ' ≠ '/' then lastSlashFrom s i else (i : Int)

/-- Go `lastSlash(s)`. -/
def lastSlash (s : List Char) : Int := lastSlashFrom s s.length

/-- The first loop of `path.Base`: strip trailing slashes; `n` is `len(path)`. -/
def stripTrailingSlashes (s : List Char) : Nat → List Char
  | 0 => []
  | n + 1 => if s.getD n ' ' = '/' then stripTrailingSlashes s n else s.take (n + 1)

/-- Go `path.Base`: the last element of the path. -/
def pathBase (path : String) : String :=
  if path = "" then "."
  else
    let p1 := stripTrailingSlashes path.data path.data.length
    let i := lastSlash p1
    let p2 := if i ≥ 0 then p1.drop (i.toNat + 1) else p1
    if p2 = [] then "/" else String.mk p2

/-- The accumulation loop of `handleFlagsFilters`:
`for _, value := range values { kFilter.value |= uint32(value) }`. -/
def accumulate (values : List Int) : Uint32KFilter :=
  values.foldl (fun k value => ⟨k.value ||| uint32 value⟩) ⟨0⟩

/-- Function `handleFlagsFilters(probe, approve, values...)`: OR the values, then
at most one write at the zero key of the flags table of the mode. -/
def handleFlagsFilters (env : Env) (p : Probe) (approve : Bool) (values : List Int) :
    Outcome × Probe :=
  let kFilter := accumulate values
  if kFilter.value ≠ 0 then
    if approve then Table.Set env p "open_flags_approvers" zeroInt32 kFilter.Bytes
    else Table.Set env p "open_flags_discarders" zeroInt32 kFilter.Bytes
  else (Outcome.nil, p)

/-- Function `handleBasenameFilter(probe, approver, basename)`: encode the string
as given and write the sentinel into the basename table of the mode. -/
def handleBasenameFilter (env : Env) (p : Probe) (approver : Bool) (basename : String) :
    Outcome × Probe :=
  match StringToKey basename env.BASENAME_FILTER_SIZE with
  | Except.error err =>
    (Outcome.error ("unable to generate a key for `" ++ basename ++ "`: " ++ err), p)
  | Except.ok key =>
    if approver then Table.Set env p "open_basename_approvers" key zeroInt8
    else Table.Set env p "open_basename_discarders" key zeroInt8

/-- Function `handleBasenameFilters(probe, approve, values...)`: one
`handleBasenameFilter` per value, returning at the first error. -/
def handleBasenameFilters (env : Env) (p : Probe) (approve : Bool) :
    List String → Outcome × Probe
  | [] => (Outcome.nil, p)
  | value :: rest =>
    match handleBasenameFilter env p approve value with
    | (Outcome.nil, p1) => handleBasenameFilters env p1 approve rest
    | r => r

/-- The loop of `handleFilenameFilters`. -/
def filenameLoop (env : Env) (p : Probe) (approve : Bool) : List String → Outcome × Probe
  | [] => (Outcome.nil, p)
  | value :: rest =>
    -- do not use dentry error placeholder as filter
    if value = env.DentryPathKeyNotFound then filenameLoop env p approve rest
    else
      let basename := pathBase value
      match handleBasenameFilter env p approve basename with
      | (Outcome.nil, p1) => filenameLoop env p1 approve rest
      | r => r

/-- Function `handleFilenameFilters(probe, approve, values...)`: approve mode only. -/
def handleFilenameFilters (env : Env) (p : Probe) (approve : Bool) (values : List String) :
    Outcome × Probe :=
  if !approve then (Outcome.error "open.filename discarders not supported", p)
  else filenameLoop env p approve values

/-- The loop of `handleProcessFilename`. -/
def processLoop (env : Env) (p : Probe) : List String → Outcome × Probe
  | [] => (Outcome.nil, p)
  | value :: rest =>
    match env.osStat value with
    | Except.error err => (Outcome.error err, p)
    | Except.ok ino =>
      let key := Int64ToKey ino
      match Table.Set env p "open_process_inode_approvers" key Uint8KFilter.Bytes with
      | (Outcome.nil, p1) => processLoop env p1 rest
      | r => r

/-- Function `handleProcessFilename(probe, approve, values...)`: approve mode only. -/
def handleProcessFilename (env : Env) (p : Probe) (approve : Bool) (values : List String) :
    Outcome × Probe :=
  if !approve then (Outcome.error "process.filename discarders not supported", p)
  else processLoop env p values

/-- The type assertion `v.Value.(string)`; `none` is the panic. -/
def FilterValue.asString : FilterValue → Option String
  | FilterValue.str s => some s
  | FilterValue.int _ => none

/-- The type assertion `v.Value.(int)`; `none` is the panic. -/
def FilterValue.asInt : FilterValue → Option Int
  | FilterValue.int n => some n
  | FilterValue.str _ => none

/-- The closure `stringValues` of `OnNewApprovers`; `none` when an assertion panics. -/
def stringValues : FilterValues → Option (List String)
  | [] => some []
  | v :: rest =>
    match v.asString with
    | none => none
    | some s => (stringValues rest).map (fun values => s :: values)

/-- The closure `intValues` of `OnNewApprovers`; `none` when an assertion panics. -/
def intValues : FilterValues → Option (List Int)
  | [] => some []
  | v :: rest =>
    match v.asInt with
    | none => none
    | some n => (intValues rest).map (fun values => n :: values)

/-- The message of a failed type assertion. -/
def assertionPanic : String := "interface conversion"

/-- The `switch field` of `OnNewApprovers`, for one entry of the map. -/
def approverField (env : Env) (p : Probe) (field : String) (values : FilterValues) :
    Outcome × Probe :=
  if field = "process.filename" then
    match stringValues values with
    | none => (Outcome.panic assertionPanic, p)
    | some vs => handleProcessFilename env p true vs
  else if field = "open.basename" then
    match stringValues values with
    | none => (Outcome.panic assertionPanic, p)
    | some vs => handleBasenameFilters env p true vs
  else if field = "open.filename" then
    match stringValues values with
    | none => (Outcome.panic assertionPanic, p)
    | some vs => handleFilenameFilters env p true vs
  else if field = "open.flags" then
    match intValues values with
    | none => (Outcome.panic assertionPanic, p)
    | some vs => handleFlagsFilters env p true vs
  else (Outcome.error "field unknown", p)

/-- The `OnNewApprovers` callback of the `vfs_open` hook point. -/
def OnNewApprovers (env : Env) (p : Probe) : Approvers → Outcome × Probe
  | [] => (Outcome.nil, p)
  | (field, values) :: rest =>
    match approverField env p field values with
    | (Outcome.nil, p1) => OnNewApprovers env p1 rest
    | r => r

/-- The `OnNewDiscarders` callback of the `vfs_open` hook point. -/
def OnNewDiscarders (env : Env) (p : Probe) (discarder : Discarder) : Outcome × Probe :=
  if discarder.Field = "process.filename" then
    match discarder.Value.asString with
    | none => (Outcome.panic assertionPanic, p)
    | some v => handleProcessFilename env p false [v]
  else if discarder.Field = "open.basename" then
    match discarder.Value.asString with
    | none => (Outcome.panic assertionPanic, p)
    | some v => handleBasenameFilters env p false [v]
  else if discarder.Field = "open.filename" then
    match discarder.Value.asString with
    | none => (Outcome.panic assertionPanic, p)
    | some v => handleFilenameFilters env p false [v]
  else if discarder.Field = "open.flags" then
    match discarder.Value.asInt with
    | none => (Outcome.panic assertionPanic, p)
    | some v => handleFlagsFilters env p false [v]
  else (Outcome.error "field unknown", p)

/-- An environment in which every table write is accepted and no path exists:
key width 32 and the resolver placeholder text. -/
def quietEnv : Env where
  BASENAME_FILTER_SIZE := 32
  DentryPathKeyNotFound := "error: dentry path key not found"
  setError := fun _ _ => none
  osStat := fun _ => Except.error "no such file or directory"

/-- Whether the call ended in a panic instead of returning. -/
def Outcome.isPanic : Outcome → Bool
  | Outcome.panic _ => true
  | _ => false

/-- The field names with a `case` in the `switch` of the two callbacks. -/
def knownFields : List String :=
  ["process.filename", "open.basename", "open.filename", "open.flags"]

/-- An entry of an `Approvers` mapping carries values of the type of its field:
integers for `open.flags`, strings for the three string fields. -/
def wellTypedEntry (e : String × FilterValues) : Bool :=
  if e.1 = "open.flags" then (intValues e.2).isSome
  else if e.1 ∈ ["process.filename", "open.basename", "open.filename"] then
    (stringValues e.2).isSome
  else true

/-- Every entry of the mapping is well typed. -/
def wellTyped (approvers : Approvers) : Bool := approvers.all wellTypedEntry

/-- A sequence of `OnNewDiscarders` calls, each on the state the previous one
left: the outcomes in order, and the final state. -/
def callDiscarders (env : Env) (p : Probe) : List Discarder → List Outcome × Probe
  | [] => ([], p)
  | d :: ds =>
    let r := OnNewDiscarders env p d
    let rs := callDiscarders env r.2 ds
    (r.1 :: rs.1, rs.2)

/-- A sequence of `OnNewApprovers` calls, each on the state the previous one
left: the outcomes in order, and the final state. -/
def callApprovers (env : Env) (p : Probe) : List Approvers → List Outcome × Probe
  | [] => ([], p)
  | a :: rest =>
    let r := OnNewApprovers env p a
    let rs := callApprovers env r.2 rest
    (r.1 :: rs.1, rs.2)

/-- The accumulators that one `OnNewApprovers` call computes for its `open.flags`
entries, in the order visited. -/
def flagAccumulators (a : Approvers) : List Nat :=
  a.filterMap (fun e =>
    if e.1 = "open.flags" then (intValues e.2).map (fun vs => (accumulate vs).value) else none)

/-- The last non-zero element of a list, if any. -/
def lastNonZero (accs : List Nat) : Option Nat :=
  accs.foldl (fun s a => if a ≠ 0 then some a else s) none

/-- The content of a flags slot after the given accumulators were handled in
turn: a non-zero accumulator replaces the content, a zero one leaves it. -/
def slotAfter (slot : Option Bytes) (accs : List Nat) : Option Bytes :=
  accs.foldl (fun s a => if a ≠ 0 then some (Uint32KFilter.Bytes ⟨a⟩) else s) slot

/-- The tables after the given `Set` calls, oldest first, were all accepted. -/
def applyAll (ws : List SetCall) (T : String → Bytes → Option Bytes) :
    String → Bytes → Option Bytes :=
  ws.foldl (fun T c => upsert T c.table c.key c.value) T

/-- The `Set` calls of `handleBasenameFilters` in approve mode on encodable
values: one per value, in order. -/
def basenameWrites (env : Env) (values : List String) : List SetCall :=
  values.filterMap (fun v =>
    match StringToKey v env.BASENAME_FILTER_SIZE with
    | Except.ok key => some ⟨"open_basename_approvers", key, zeroInt8⟩
    | Except.error _ => none)

/-- The `Set` calls of `handleFilenameFilters` in approve mode: those of the
basenames of the values other than the placeholder. -/
def filenameWrites (env : Env) (values : List String) : List SetCall :=
  basenameWrites env
    ((values.filter (fun v => decide (v ≠ env.DentryPathKeyNotFound))).map pathBase)

/-- The `Set` call of `handleFlagsFilters` in approve mode, if any. -/
def flagsWrites (values : List Int) : List SetCall :=
  if (accumulate values).value ≠ 0 then
    [⟨"open_flags_approvers", zeroInt32, (accumulate values).Bytes⟩]
  else []

/-- The `Set` calls that handling one entry of an `Approvers` mapping makes when
it succeeds, for the fields `open.basename`, `open.filename` and `open.flags`. -/
def entryWrites (env : Env) (e : String × FilterValues) : List SetCall :=
  if e.1 = "open.basename" then
    match stringValues e.2 with
    | some vs => basenameWrites env vs
    | none => []
  else if e.1 = "open.filename" then
    match stringValues e.2 with
    | some vs => filenameWrites env vs
    | none => []
  else if e.1 = "open.flags" then
    match intValues e.2 with
    | some vs => flagsWrites vs
    | none => []
  else []

/-- No two of the calls write different values at the same key of the same table. -/
def Consistent (ws : List SetCall) : Prop :=
  ∀ c ∈ ws, ∀ d ∈ ws, c.table = d.table → c.key = d.key → c.value = d.value

/-- Modelled from the spec: the constants `BASENAME_FLAG`, `FLAGS_FLAG` and
`PROCESS_INODE` are not in the sources at hand; `policy_flags` is a flag
identifying which table and semantics apply to a field (basename filter,
flags-bitmask filter, inode filter). -/
inductive PolicyFlag where
  | BASENAME_FLAG
  | FLAGS_FLAG
  | PROCESS_INODE
deriving DecidableEq, Repr

/-- Modelled from the spec: `eval.ScalarValueType` and `eval.BitmaskValueType` are
not in the sources at hand; `field_value_types` is a bit set of accepted value
shapes, scalar and/or bitmask. A bit set is the list of its bits, `|` is `++`. -/
inductive FieldValueType where
  | ScalarValueType
  | BitmaskValueType
deriving DecidableEq, Repr

/-- The per-field descriptor of a hook point: `{PolicyFlags, FieldValueTypes}`. -/
structure Capability where
  PolicyFlags : PolicyFlag
  FieldValueTypes : List FieldValueType
deriving DecidableEq, Repr

/-- The type `Capabilities`: field name to descriptor. -/
abbrev Capabilities := List (String × Capability)

/-- A `HookPoint` as far as the filters go: its name, the capabilities per event
type and the policy table (the kernel probes to attach are left out; the two
callbacks of `vfs_open` are `OnNewApprovers` and `OnNewDiscarders`). -/
structure HookPoint where
  Name : String
  EventTypes : List (String × Capabilities)
  PolicyTable : String
deriving DecidableEq, Repr

/-- OpenHookPoints - list of the kProbes of open: `sys_open`, `sys_openat` and
`vfs_open`, with the `EventTypes` literal of each. -/
def OpenHookPoints : List HookPoint :=
  [ ⟨"sys_open", [("open", [])], ""⟩,
    ⟨"sys_openat", [("open", [])], ""⟩,
    ⟨"vfs_open",
      [("open",
        [("open.filename", ⟨PolicyFlag.BASENAME_FLAG, [FieldValueType.ScalarValueType]⟩),
         ("open.basename", ⟨PolicyFlag.BASENAME_FLAG, [FieldValueType.ScalarValueType]⟩),
         ("open.flags", ⟨PolicyFlag.FLAGS_FLAG,
            [FieldValueType.ScalarValueType] ++ [FieldValueType.BitmaskValueType]⟩),
         ("process.filename", ⟨PolicyFlag.PROCESS_INODE, [FieldValueType.ScalarValueType]⟩)])],
      "open_policy"⟩ ]

/-- The capabilities declared for an event type on the hook point of the given
name; empty when there is no such hook point or event type. -/
def capabilitiesOf (hookPoint eventType : String) : Capabilities :=
  match OpenHookPoints.find? (fun hp => hp.Name == hookPoint) with
  | some hp => (hp.EventTypes.lookup eventType).getD []
  | none => []

/-- The field names declared for event type `open` on `vfs_open`. -/
def vfsOpenFields : List String := (capabilitiesOf "vfs_open" "open").map Prod.fst

/-- The bitwise OR of a list of naturals. -/
def orAll (xs : List Nat) : Nat := xs.foldl (· ||| ·) 0

/-! ## Table writes -/

theorem Table.Set_calls (env : Env) (p : Probe) (t : String) (k v : Bytes) :
    (Table.Set env p t k v).2.calls = p.calls ++ [⟨t, k, v⟩] := by
  unfold Table.Set
  cases h : env.setError p.calls ⟨t, k, v⟩ <;> rfl

theorem Table.Set_other (env : Env) (p : Probe) (t : String) (k v : Bytes) (n : String)
    (hn : n ≠ t) : (Table.Set env p t k v).2.tables n = p.tables n := by
  unfold Table.Set
  cases h : env.setError p.calls ⟨t, k, v⟩
  · funext k1
    simp [upsert, hn]
  · rfl

theorem Table.Set_accepted (env : Env) (p : Probe) (t : String) (k v : Bytes)
    (h : env.setError p.calls ⟨t, k, v⟩ = none) :
    Table.Set env p t k v = (Outcome.nil, ⟨upsert p.tables t k v, p.calls ++ [⟨t, k, v⟩]⟩) := by
  simp [Table.Set, h]

theorem Table.Set_nil (env : Env) (p : Probe) (t : String) (k v : Bytes)
    (h : (Table.Set env p t k v).1 = Outcome.nil) :
    (Table.Set env p t k v).2.tables = upsert p.tables t k v := by
  unfold Table.Set at h ⊢
  cases hs : env.setError p.calls ⟨t, k, v⟩ <;> simp_all

theorem Table.Set_tables_cases (env : Env) (p : Probe) (t : String) (k v : Bytes) :
    (Table.Set env p t k v).2.tables = p.tables
      ∨ (Table.Set env p t k v).2.tables = upsert p.tables t k v := by
  unfold Table.Set
  cases h : env.setError p.calls ⟨t, k, v⟩
  · exact Or.inr rfl
  · exact Or.inl rfl

theorem upsert_idem (T : String → Bytes → Option Bytes) (t : String) (k v : Bytes) :
    upsert (upsert T t k v) t k v = upsert T t k v := by
  funext n k1
  simp only [upsert]
  split <;> rfl

/-! ## The flags accumulator -/

theorem uint32_of_range (v : Int) (h0 : 0 ≤ v) (h1 : v < 2 ^ 32) : uint32 v = v.toNat := by
  unfold uint32
  rw [Int.emod_eq_of_lt h0 h1]

theorem foldl_or_uint32 (values : List Int) (hr : ∀ v ∈ values, 0 ≤ v ∧ v < 2 ^ 32)
    (k : Uint32KFilter) :
    (values.foldl (fun k value => (⟨k.value ||| uint32 value⟩ : Uint32KFilter)) k).value
      = (values.map Int.toNat).foldl (· ||| ·) k.value := by
  induction values generalizing k with
  | nil => rfl
  | cons v vs ih =>
    have hv := hr v (List.mem_cons_self v vs)
    simp only [List.foldl_cons, List.map_cons]
    rw [ih (fun w hw => hr w (List.mem_cons_of_mem v hw))]
    simp [uint32_of_range v hv.1 hv.2]

theorem accumulate_of_range (values : List Int) (hr : ∀ v ∈ values, 0 ≤ v ∧ v < 2 ^ 32) :
    (accumulate values).value = orAll (values.map Int.toNat) := by
  unfold accumulate orAll
  exact foldl_or_uint32 values hr ⟨0⟩

theorem uint32_lt (v : Int) : uint32 v < 2 ^ 32 := by
  unfold uint32
  have h : v % 2 ^ 32 < 2 ^ 32 := Int.emod_lt_of_pos v (by norm_num)
  have h0 : 0 ≤ v % 2 ^ 32 := Int.emod_nonneg v (by norm_num)
  omega

theorem foldl_or_lt (values : List Int) (k : Uint32KFilter) (hk : k.value < 2 ^ 32) :
    (values.foldl (fun k value => (⟨k.value ||| uint32 value⟩ : Uint32KFilter)) k).value
      < 2 ^ 32 := by
  induction values generalizing k with
  | nil => exact hk
  | cons v vs ih =>
    simp only [List.foldl_cons]
    exact ih _ (Nat.or_lt_two_pow hk (uint32_lt v))

theorem accumulate_lt (values : List Int) : (accumulate values).value < 2 ^ 32 :=
  foldl_or_lt values ⟨0⟩ (by norm_num)

theorem ofBytes_Bytes (k : Uint32KFilter) (hk : k.value < 2 ^ 32) :
    Uint32KFilter.ofBytes k.Bytes = some k.value := by
  simp only [Uint32KFilter.Bytes, Uint32KFilter.ofBytes, Option.some.injEq]
  omega

/-- C1: in approve mode `handleFlagsFilters` on flag values within `0 .. 2^32-1`
makes exactly one `Set` call when the OR of the values is non-zero, on the
reserved zero key of `open_flags_approvers` with the bytes of that OR (which read
back as the OR, and which the table then holds when the kernel accepts the
write); when the OR is zero it makes no call and returns `nil` with the probe as
it was. In both cases every other table is unchanged. -/
theorem handleFlagsFilters_approve_single_write (env : Env) (p : Probe) (values : List Int)
    (hr : ∀ v ∈ values, 0 ≤ v ∧ v < 2 ^ 32) :
    (orAll (values.map Int.toNat) ≠ 0 →
        (handleFlagsFilters env p true values).2.calls
          = p.calls ++ [⟨"open_flags_approvers", zeroInt32,
              Uint32KFilter.Bytes ⟨orAll (values.map Int.toNat)⟩⟩]
        ∧ Uint32KFilter.ofBytes (Uint32KFilter.Bytes ⟨orAll (values.map Int.toNat)⟩)
            = some (orAll (values.map Int.toNat))
        ∧ (env.setError p.calls ⟨"open_flags_approvers", zeroInt32,
              Uint32KFilter.Bytes ⟨orAll (values.map Int.toNat)⟩⟩ = none →
            (handleFlagsFilters env p true values).1 = Outcome.nil
            ∧ (handleFlagsFilters env p true values).2.tables "open_flags_approvers" zeroInt32
                = some (Uint32KFilter.Bytes ⟨orAll (values.map Int.toNat)⟩)))
    ∧ (orAll (values.map Int.toNat) = 0 →
        handleFlagsFilters env p true values = (Outcome.nil, p))
    ∧ ∀ n, n ≠ "open_flags_approvers" →
        (handleFlagsFilters env p true values).2.tables n = p.tables n := by
  have hacc := accumulate_of_range values hr
  have hlt := accumulate_lt values
  have hk : accumulate values = ⟨orAll (values.map Int.toNat)⟩ := by
    cases h : accumulate values
    simp [← hacc, h]
  refine ⟨fun hne => ?_, fun hz => ?_, fun n hn => ?_⟩
  · have hif : (accumulate values).value ≠ 0 := by rw [hacc]; exact hne
    refine ⟨?_, ?_, fun hok => ?_⟩
    · simp only [handleFlagsFilters, hif, ne_eq, not_false_eq_true, if_true]
      rw [Table.Set_calls, hk]
    · rw [← hk]
      rw [ofBytes_Bytes _ hlt, hacc]
    · simp only [handleFlagsFilters, hif, ne_eq, not_false_eq_true, if_true]
      rw [hk, Table.Set_accepted env p _ _ _ hok]
      simp [upsert]
  · simp [handleFlagsFilters, hacc, hz]
  · unfold handleFlagsFilters
    by_cases hif : (accumulate values).value ≠ 0
    · simp only [hif, ne_eq, not_false_eq_true, if_true]
      exact Table.Set_other env p _ _ _ n hn
    · simp [hif]

/-- C1, at the values `[1, 2]`: one write of the bytes of `3`. -/
theorem handleFlagsFilters_approve_single_write_witness :
    (handleFlagsFilters quietEnv Probe.empty true [1, 2]).2.calls
      = [⟨"open_flags_approvers", [0, 0, 0, 0], [3, 0, 0, 0]⟩]
    ∧ Uint32KFilter.ofBytes [3, 0, 0, 0] = some 3 := by
  have h := (handleFlagsFilters_approve_single_write quietEnv Probe.empty [1, 2]
    (by decide)).1 (by decide)
  exact ⟨by simpa [Probe.empty, orAll, zeroInt32, Uint32KFilter.Bytes] using h.1,
    by simpa [orAll, Uint32KFilter.Bytes] using h.2.1⟩

/-! ## Dispatch of a single field -/

theorem OnNewApprovers_single (env : Env) (p : Probe) (field : String) (values : FilterValues) :
    OnNewApprovers env p [(field, values)] = approverField env p field values := by
  rcases h : approverField env p field values with ⟨o, p1⟩
  cases o <;> simp [OnNewApprovers, h]

theorem intValues_map_int (vs : List Int) : intValues (vs.map FilterValue.int) = some vs := by
  induction vs with
  | nil => rfl
  | cons v vs ih => simp [intValues, FilterValue.asInt, ih]

theorem stringValues_map_str (vs : List String) :
    stringValues (vs.map FilterValue.str) = some vs := by
  induction vs with
  | nil => rfl
  | cons v vs ih => simp [stringValues, FilterValue.asString, ih]

theorem approverField_flags (env : Env) (p : Probe) (vs : List Int) :
    approverField env p "open.flags" (vs.map FilterValue.int)
      = handleFlagsFilters env p true vs := by
  have h := intValues_map_int vs
  simp [approverField, h]

theorem approverField_basename (env : Env) (p : Probe) (vs : List String) :
    approverField env p "open.basename" (vs.map FilterValue.str)
      = handleBasenameFilters env p true vs := by
  have h := stringValues_map_str vs
  simp [approverField, h]

theorem approverField_filename (env : Env) (p : Probe) (vs : List String) :
    approverField env p "open.filename" (vs.map FilterValue.str)
      = handleFilenameFilters env p true vs := by
  have h := stringValues_map_str vs
  simp [approverField, h]

/-! ## The accumulator depends only on the set of values -/

theorem testBit_foldl_or (xs : List Int) (k : Uint32KFilter) (i : Nat) :
    (xs.foldl (fun k value => (⟨k.value ||| uint32 value⟩ : Uint32KFilter)) k).value.testBit i
      = (k.value.testBit i || xs.any (fun v => (uint32 v).testBit i)) := by
  induction xs generalizing k with
  | nil => simp
  | cons v vs ih =>
    simp only [List.foldl_cons, List.any_cons]
    rw [ih]
    simp [Nat.testBit_or, Bool.or_assoc]

theorem accumulate_congr (xs ys : List Int) (h : ∀ v, v ∈ xs ↔ v ∈ ys) :
    accumulate xs = accumulate ys := by
  have hv : (accumulate xs).value = (accumulate ys).value := by
    apply Nat.eq_of_testBit_eq
    intro i
    unfold accumulate
    rw [testBit_foldl_or, testBit_foldl_or]
    congr 1
    rw [Bool.eq_iff_iff]
    simp only [List.any_eq_true]
    constructor
    · rintro ⟨v, hv, hb⟩
      exact ⟨v, (h v).1 hv, hb⟩
    · rintro ⟨v, hv, hb⟩
      exact ⟨v, (h v).2 hv, hb⟩
  cases hx : accumulate xs
  cases hy : accumulate ys
  simp_all

/-- C2: bitmask accumulation is commutative and idempotent. Compiling
`Approvers{open.flags: [B, A]}` after `Approvers{open.flags: [A, B]}` repeats the
very `Set` call of the first compilation (or makes none when that one made none),
so that once the first compilation has succeeded the tables after both are the
tables after the first alone; and from any probe state `handleFlagsFilters`
returns the same outcome and state for two value lists with the same elements
(any permutation or duplication). -/
theorem flags_accumulation_commutative_idempotent (env : Env) (p : Probe) (A B : Int) :
    ((OnNewApprovers env p [("open.flags", [FilterValue.int A, FilterValue.int B])]).1
        = Outcome.nil →
      (OnNewApprovers env
          (OnNewApprovers env p [("open.flags", [FilterValue.int A, FilterValue.int B])]).2
          [("open.flags", [FilterValue.int B, FilterValue.int A])]).2.tables
        = (OnNewApprovers env p
            [("open.flags", [FilterValue.int A, FilterValue.int B])]).2.tables)
    ∧ (∀ q : Probe,
        (OnNewApprovers env q [("open.flags", [FilterValue.int B, FilterValue.int A])]).2.calls
            = q.calls ++ ((OnNewApprovers env p
                [("open.flags", [FilterValue.int A, FilterValue.int B])]).2.calls.drop
                  p.calls.length))
    ∧ (∀ (approve : Bool) (xs ys : List Int), (∀ v, v ∈ xs ↔ v ∈ ys) →
        handleFlagsFilters env p approve xs = handleFlagsFilters env p approve ys) := by
  have hAB : ∀ q : Probe,
      OnNewApprovers env q [("open.flags", [FilterValue.int A, FilterValue.int B])]
        = handleFlagsFilters env q true [A, B] := fun q => by
    rw [OnNewApprovers_single]
    exact approverField_flags env q [A, B]
  have hBA : ∀ q : Probe,
      OnNewApprovers env q [("open.flags", [FilterValue.int B, FilterValue.int A])]
        = handleFlagsFilters env q true [A, B] := fun q => by
    rw [OnNewApprovers_single]
    rw [show [FilterValue.int B, FilterValue.int A] = [B, A].map FilterValue.int from rfl]
    rw [approverField_flags env q [B, A]]
    simp only [handleFlagsFilters]
    rw [accumulate_congr [B, A] [A, B] (by intro v; simp [or_comm])]
  refine ⟨fun hok => ?_, fun q => ?_, fun approve xs ys h => ?_⟩
  · rw [hBA, hAB]
    rw [hAB] at hok
    unfold handleFlagsFilters at hok ⊢
    by_cases hz : (accumulate [A, B]).value ≠ 0
    · simp only [hz, ne_eq, not_false_eq_true, if_true] at hok ⊢
      have h1 := Table.Set_nil env p _ _ _ hok
      rcases Table.Set_tables_cases env
        (Table.Set env p "open_flags_approvers" zeroInt32 (accumulate [A, B]).Bytes).2
        "open_flags_approvers" zeroInt32 (accumulate [A, B]).Bytes with h | h
      · exact h
      · rw [h, h1, upsert_idem]
    · simp [hz]
  · rw [hBA, hAB]
    unfold handleFlagsFilters
    by_cases hz : (accumulate [A, B]).value ≠ 0
    · simp only [hz, ne_eq, not_false_eq_true, if_true, Table.Set_calls]
      simp
    · simp [hz]
  · simp only [handleFlagsFilters]
    rw [accumulate_congr xs ys h]

/-- C2, at `A = 1`, `B = 2` from the empty probe: the first compilation succeeds,
and compiling `[2, 1]` afterwards leaves the slot at the bytes of `3`. -/
theorem flags_accumulation_commutative_idempotent_witness :
    (OnNewApprovers quietEnv Probe.empty
        [("open.flags", [FilterValue.int 1, FilterValue.int 2])]).1 = Outcome.nil
    ∧ (OnNewApprovers quietEnv
          (OnNewApprovers quietEnv Probe.empty
            [("open.flags", [FilterValue.int 1, FilterValue.int 2])]).2
          [("open.flags", [FilterValue.int 2, FilterValue.int 1])]).2.tables
        = (OnNewApprovers quietEnv Probe.empty
            [("open.flags", [FilterValue.int 1, FilterValue.int 2])]).2.tables :=
  ⟨by decide, (flags_accumulation_commutative_idempotent quietEnv Probe.empty 1 2).1 (by decide)⟩

/-- C3: the `OnNewDiscarders` callback called with field `process.filename` or
`open.filename` and any string value returns an error and leaves the probe (every
table, and the record of `Set` calls) exactly as it was. -/
theorem discarders_unsupported_fields (env : Env) (p : Probe) (value : String) :
    OnNewDiscarders env p ⟨"process.filename", FilterValue.str value⟩
        = (Outcome.error "process.filename discarders not supported", p)
    ∧ OnNewDiscarders env p ⟨"open.filename", FilterValue.str value⟩
        = (Outcome.error "open.filename discarders not supported", p) := by
  constructor
  · simp [OnNewDiscarders, FilterValue.asString, handleProcessFilename]
  · simp [OnNewDiscarders, FilterValue.asString, handleFilenameFilters]

/-! ## The filename handler skips the resolver placeholder -/

theorem filenameLoop_cons_ne (env : Env) (p : Probe) (approve : Bool) (v : String)
    (vs : List String) (hv : v ≠ env.DentryPathKeyNotFound) :
    filenameLoop env p approve (v :: vs)
      = match handleBasenameFilter env p approve (pathBase v) with
        | (Outcome.nil, p1) => filenameLoop env p1 approve vs
        | r => r := by
  rw [filenameLoop, if_neg hv]

theorem filenameLoop_cons_eq (env : Env) (p : Probe) (approve : Bool) (vs : List String) :
    filenameLoop env p approve (env.DentryPathKeyNotFound :: vs)
      = filenameLoop env p approve vs := by
  rw [filenameLoop, if_pos rfl]

theorem filenameLoop_filter (env : Env) (p : Probe) (approve : Bool) (values : List String) :
    filenameLoop env p approve values
      = filenameLoop env p approve
          (values.filter (fun v => decide (v ≠ env.DentryPathKeyNotFound))) := by
  induction values generalizing p with
  | nil => rfl
  | cons v vs ih =>
    by_cases hv : v = env.DentryPathKeyNotFound
    · rw [List.filter_cons_of_neg (by simpa using hv)]
      rw [filenameLoop, if_pos hv]
      exact ih p
    · rw [List.filter_cons_of_pos (by simpa using hv)]
      rw [filenameLoop, filenameLoop, if_neg hv, if_neg hv]
      rcases h : handleBasenameFilter env p approve (pathBase v) with ⟨o, p1⟩
      cases o
      · simp only [h]
        exact ih p1
      · simp only [h]
      · simp only [h]

theorem filenameLoop_placeholders (env : Env) (p : Probe) (approve : Bool) (n : Nat) :
    filenameLoop env p approve (List.replicate n env.DentryPathKeyNotFound)
      = (Outcome.nil, p) := by
  induction n with
  | zero => rfl
  | succ n ih =>
    rw [List.replicate_succ, filenameLoop, if_pos rfl]
    exact ih

/-- C4, the claim as stated fails: with key width 32 and the 32-byte placeholder
text, a mix of a valid value and the placeholder under `open.basename`, or a path
under `open.filename` whose last element is the placeholder text, puts the
encoding of the placeholder into `open_basename_approvers`, which did not hold it. -/
theorem placeholder_key_written :
    StringToKey quietEnv.DentryPathKeyNotFound quietEnv.BASENAME_FILTER_SIZE
        = Except.ok (stringBytes "error: dentry path key not found")
    ∧ Probe.empty.tables "open_basename_approvers"
        (stringBytes "error: dentry path key not found") = none
    ∧ (OnNewApprovers quietEnv Probe.empty
        [("open.basename", [FilterValue.str "passwd",
            FilterValue.str quietEnv.DentryPathKeyNotFound])]).2.tables
        "open_basename_approvers" (stringBytes "error: dentry path key not found")
          = some zeroInt8
    ∧ (OnNewApprovers quietEnv Probe.empty
        [("open.filename", [FilterValue.str "/proc/error: dentry path key not found"])]).2.tables
        "open_basename_approvers" (stringBytes "error: dentry path key not found")
          = some zeroInt8 := by
  decide

/-- C4, amended: under `open.filename` in approve mode a value equal to the
placeholder is skipped before any encoding or table access: the handler, and the
`OnNewApprovers` callback on that field, behave on a value list exactly as on the
list with the placeholder values removed (same outcome, tables and `Set` calls),
and a list of placeholders alone makes no write and returns `nil`. -/
theorem filename_placeholder_skipped (env : Env) (p : Probe) (values : List String) :
    handleFilenameFilters env p true values
        = handleFilenameFilters env p true
            (values.filter (fun v => decide (v ≠ env.DentryPathKeyNotFound)))
    ∧ OnNewApprovers env p [("open.filename", values.map FilterValue.str)]
        = OnNewApprovers env p [("open.filename",
            (values.filter (fun v => decide (v ≠ env.DentryPathKeyNotFound))).map
              FilterValue.str)]
    ∧ ∀ n : Nat,
        OnNewApprovers env p [("open.filename",
            (List.replicate n env.DentryPathKeyNotFound).map FilterValue.str)]
          = (Outcome.nil, p) := by
  have h1 : handleFilenameFilters env p true values
      = handleFilenameFilters env p true
          (values.filter (fun v => decide (v ≠ env.DentryPathKeyNotFound))) := by
    simp only [handleFilenameFilters]
    exact filenameLoop_filter env p true values
  refine ⟨h1, ?_, fun n => ?_⟩
  · rw [OnNewApprovers_single, OnNewApprovers_single, approverField_filename,
      approverField_filename]
    exact h1
  · rw [OnNewApprovers_single, approverField_filename]
    simp only [handleFilenameFilters]
    exact filenameLoop_placeholders env p true n

/-! ## Keys of encodable values -/

theorem StringToKey_ok (v : String) (size : Nat) (h : len v ≤ size) :
    StringToKey v size = Except.ok (stringBytes v ++ List.replicate (size - len v) 0) := by
  unfold StringToKey
  rw [if_neg (by omega)]

theorem StringToKey_too_long (v : String) (size : Nat) (h : len v > size) :
    StringToKey v size = Except.error "string too long" := by
  unfold StringToKey
  rw [if_pos h]

theorem foldl_upsert_hit (t : String) (z : Bytes) (f : String → Bytes) (values : List String)
    (T : String → Bytes → Option Bytes) (k : Bytes) (h : ∃ v ∈ values, f v = k) :
    (values.foldl (fun T v => upsert T t (f v) z) T) t k = some z := by
  induction values generalizing T with
  | nil => simp at h
  | cons v vs ih =>
    simp only [List.foldl_cons]
    by_cases hvs : ∃ w ∈ vs, f w = k
    · exact ih _ hvs
    · have hv : f v = k := by
        rcases h with ⟨w, hw, hk⟩
        rcases List.mem_cons.1 hw with rfl | hw
        · exact hk
        · exact absurd ⟨w, hw, hk⟩ hvs
      have hstay : ∀ (ws : List String) (T1 : String → Bytes → Option Bytes),
          T1 t k = some z → (ws.foldl (fun T v => upsert T t (f v) z) T1) t k = some z := by
        intro ws
        induction ws with
        | nil => intro T1 h1; exact h1
        | cons w ws ihw =>
          intro T1 h1
          simp only [List.foldl_cons]
          apply ihw
          simp only [upsert]
          split
          · rfl
          · exact h1
      apply hstay
      simp [upsert, hv]

theorem foldl_upsert_miss (t : String) (z : Bytes) (f : String → Bytes) (values : List String)
    (T : String → Bytes → Option Bytes) (n : String) (k : Bytes)
    (h : n ≠ t ∨ ¬ ∃ v ∈ values, f v = k) :
    (values.foldl (fun T v => upsert T t (f v) z) T) n k = T n k := by
  induction values generalizing T with
  | nil => rfl
  | cons v vs ih =>
    simp only [List.foldl_cons]
    rw [ih]
    · simp only [upsert]
      split
      · rename_i hc
        rcases h with h | h
        · exact absurd hc.1 h
        · exact absurd ⟨v, List.mem_cons_self v vs, hc.2.symm⟩ h
      · rfl
    · rcases h with h | h
      · exact Or.inl h
      · exact Or.inr (fun ⟨w, hw, hk⟩ => h ⟨w, List.mem_cons_of_mem v hw, hk⟩)

theorem handleBasenameFilters_accepted (env : Env) (approve : Bool) (values : List String)
    (hlen : ∀ v ∈ values, len v ≤ env.BASENAME_FILTER_SIZE)
    (hset : ∀ h c, env.setError h c = none) (p : Probe) :
    handleBasenameFilters env p approve values
      = (Outcome.nil,
          ⟨values.foldl (fun T v =>
              upsert T (if approve then "open_basename_approvers" else "open_basename_discarders")
                (stringBytes v ++ List.replicate (env.BASENAME_FILTER_SIZE - len v) 0) zeroInt8)
              p.tables,
           p.calls ++ values.map (fun v =>
              ⟨if approve then "open_basename_approvers" else "open_basename_discarders",
                stringBytes v ++ List.replicate (env.BASENAME_FILTER_SIZE - len v) 0,
                zeroInt8⟩)⟩) := by
  induction values generalizing p with
  | nil => simp [handleBasenameFilters]
  | cons v vs ih =>
    have hv := hlen v (List.mem_cons_self v vs)
    have hstep : handleBasenameFilter env p approve v
        = (Outcome.nil,
            ⟨upsert p.tables
                (if approve then "open_basename_approvers" else "open_basename_discarders")
                (stringBytes v ++ List.replicate (env.BASENAME_FILTER_SIZE - len v) 0) zeroInt8,
             p.calls ++ [⟨if approve then "open_basename_approvers"
                  else "open_basename_discarders",
                stringBytes v ++ List.replicate (env.BASENAME_FILTER_SIZE - len v) 0,
                zeroInt8⟩]⟩) := by
      unfold handleBasenameFilter
      rw [StringToKey_ok v _ hv]
      cases approve
      · simp [Table.Set_accepted env p _ _ _ (hset _ _)]
      · simp [Table.Set_accepted env p _ _ _ (hset _ _)]
    rw [handleBasenameFilters, hstep]
    simp only []
    rw [ih (fun w hw => hlen w (List.mem_cons_of_mem v hw))]
    simp


theorem basename_entries (env : Env) (p : Probe) (approve : Bool) (values : List String)
    (hlen : ∀ v ∈ values, len v ≤ env.BASENAME_FILTER_SIZE)
    (hset : ∀ h c, env.setError h c = none) (tbl : String)
    (htbl : tbl = if approve then "open_basename_approvers" else "open_basename_discarders") :
    (handleBasenameFilters env p approve values).1 = Outcome.nil
    ∧ (∀ k, (∃ v ∈ values, StringToKey v env.BASENAME_FILTER_SIZE = Except.ok k) →
        (handleBasenameFilters env p approve values).2.tables tbl k = some zeroInt8)
    ∧ (∀ k, (¬ ∃ v ∈ values, StringToKey v env.BASENAME_FILTER_SIZE = Except.ok k) →
        (handleBasenameFilters env p approve values).2.tables tbl k = p.tables tbl k)
    ∧ (∀ n, n ≠ tbl → (handleBasenameFilters env p approve values).2.tables n = p.tables n)
    ∧ (handleBasenameFilters env p approve values).2.calls.map (fun c => (c.key, c.value))
        = p.calls.map (fun c => (c.key, c.value)) ++ values.map (fun v =>
            (stringBytes v ++ List.replicate (env.BASENAME_FILTER_SIZE - len v) 0, zeroInt8)) := by
  subst htbl
  rw [handleBasenameFilters_accepted env approve values hlen hset p]
  refine ⟨rfl, fun k hk => ?_, fun k hk => ?_, fun n hn => ?_, ?_⟩
  · apply foldl_upsert_hit
    rcases hk with ⟨v, hv, hkv⟩
    rw [StringToKey_ok v _ (hlen v hv)] at hkv
    exact ⟨v, hv, Except.ok.inj hkv⟩
  · apply foldl_upsert_miss
    refine Or.inr (fun ⟨v, hv, hkv⟩ => hk ⟨v, hv, ?_⟩)
    rw [StringToKey_ok v _ (hlen v hv), hkv]
  · funext k
    apply foldl_upsert_miss
    exact Or.inl hn
  · simp [List.map_append, Function.comp_def]

/-- C5: when every value is no longer than `BASENAME_FILTER_SIZE` and table
writes succeed, `handleBasenameFilters` in approve mode returns `nil` and leaves
`open_basename_approvers` as its starting state upserted with `StringToKey(v)`
mapped to `zeroInt8` for every `v` of the list, every other table (so
`open_basename_discarders`) untouched; in discard mode it does the same on
`open_basename_discarders`, leaving `open_basename_approvers` untouched, and the
keys and values of the `Set` calls it makes are those of approve mode. -/
theorem handleBasenameFilters_presence_entries (env : Env) (p : Probe) (values : List String)
    (hlen : ∀ v ∈ values, len v ≤ env.BASENAME_FILTER_SIZE)
    (hset : ∀ h c, env.setError h c = none) :
    ((handleBasenameFilters env p true values).1 = Outcome.nil
      ∧ (∀ k, (∃ v ∈ values, StringToKey v env.BASENAME_FILTER_SIZE = Except.ok k) →
          (handleBasenameFilters env p true values).2.tables "open_basename_approvers" k
            = some zeroInt8)
      ∧ (∀ k, (¬ ∃ v ∈ values, StringToKey v env.BASENAME_FILTER_SIZE = Except.ok k) →
          (handleBasenameFilters env p true values).2.tables "open_basename_approvers" k
            = p.tables "open_basename_approvers" k)
      ∧ (∀ n, n ≠ "open_basename_approvers" →
          (handleBasenameFilters env p true values).2.tables n = p.tables n))
    ∧ ((handleBasenameFilters env p false values).1 = Outcome.nil
      ∧ (∀ k, (∃ v ∈ values, StringToKey v env.BASENAME_FILTER_SIZE = Except.ok k) →
          (handleBasenameFilters env p false values).2.tables "open_basename_discarders" k
            = some zeroInt8)
      ∧ (∀ k, (¬ ∃ v ∈ values, StringToKey v env.BASENAME_FILTER_SIZE = Except.ok k) →
          (handleBasenameFilters env p false values).2.tables "open_basename_discarders" k
            = p.tables "open_basename_discarders" k)
      ∧ (∀ n, n ≠ "open_basename_discarders" →
          (handleBasenameFilters env p false values).2.tables n = p.tables n))
    ∧ (handleBasenameFilters env p false values).2.calls.map (fun c => (c.key, c.value))
        = (handleBasenameFilters env p true values).2.calls.map (fun c => (c.key, c.value)) := by
  have ha := basename_entries env p true values hlen hset "open_basename_approvers" rfl
  have hd := basename_entries env p false values hlen hset "open_basename_discarders" rfl
  refine ⟨⟨ha.1, ha.2.1, ha.2.2.1, ha.2.2.2.1⟩, ⟨hd.1, hd.2.1, hd.2.2.1, hd.2.2.2.1⟩, ?_⟩
  rw [ha.2.2.2.2, hd.2.2.2.2]

/-- C5, at `["passwd", "shadow"]` in approve mode from the empty probe: both keys
hold the sentinel and `open_basename_discarders` stays empty. -/
theorem handleBasenameFilters_presence_entries_witness :
    (∀ v ∈ ["passwd", "shadow"], len v ≤ quietEnv.BASENAME_FILTER_SIZE)
    ∧ (handleBasenameFilters quietEnv Probe.empty true ["passwd", "shadow"]).1 = Outcome.nil
    ∧ (handleBasenameFilters quietEnv Probe.empty true ["passwd", "shadow"]).2.tables
        "open_basename_approvers" (stringBytes "passwd" ++ List.replicate 26 0) = some [0]
    ∧ (handleBasenameFilters quietEnv Probe.empty true ["passwd", "shadow"]).2.tables
        "open_basename_approvers" (stringBytes "shadow" ++ List.replicate 26 0) = some [0]
    ∧ (handleBasenameFilters quietEnv Probe.empty true ["passwd", "shadow"]).2.tables
        "open_basename_discarders" = Probe.empty.tables "open_basename_discarders" := by
  have hlen : ∀ v ∈ ["passwd", "shadow"], len v ≤ quietEnv.BASENAME_FILTER_SIZE := by decide
  have h := (handleBasenameFilters_presence_entries quietEnv Probe.empty ["passwd", "shadow"]
    hlen (fun _ _ => rfl)).1
  exact ⟨hlen, h.1, h.2.1 _ ⟨"passwd", by simp, by decide⟩,
    h.2.1 _ ⟨"shadow", by simp, by decide⟩, h.2.2.2 _ (by decide)⟩

/-- C6: for a value longer than `BASENAME_FILTER_SIZE`, `handleBasenameFilter`
returns an error in either mode with the probe (tables and record of `Set` calls)
as it was, and `OnNewApprovers` called with `Approvers{"open.basename": [v]}`
fails the same way, the state before the call preserved. -/
theorem oversized_basename_rejected (env : Env) (p : Probe) (v : String)
    (h : len v > env.BASENAME_FILTER_SIZE) :
    (∀ approver : Bool, handleBasenameFilter env p approver v
        = (Outcome.error ("unable to generate a key for `" ++ v ++ "`: " ++ "string too long"),
            p))
    ∧ OnNewApprovers env p [("open.basename", [FilterValue.str v])]
        = (Outcome.error ("unable to generate a key for `" ++ v ++ "`: " ++ "string too long"),
            p) := by
  have h1 : ∀ approver : Bool, handleBasenameFilter env p approver v
      = (Outcome.error ("unable to generate a key for `" ++ v ++ "`: " ++ "string too long"),
          p) := by
    intro approver
    unfold handleBasenameFilter
    rw [StringToKey_too_long v _ h]
  refine ⟨h1, ?_⟩
  rw [OnNewApprovers_single]
  rw [show [FilterValue.str v] = [v].map FilterValue.str from rfl, approverField_basename]
  rw [handleBasenameFilters, h1 true]

/-- C6, at a value of 33 bytes with key width 32. -/
theorem oversized_basename_rejected_witness :
    len "abcdefghijklmnopqrstuvwxyz0123456" > quietEnv.BASENAME_FILTER_SIZE
    ∧ OnNewApprovers quietEnv Probe.empty
        [("open.basename", [FilterValue.str "abcdefghijklmnopqrstuvwxyz0123456"])]
      = (Outcome.error ("unable to generate a key for `"
          ++ "abcdefghijklmnopqrstuvwxyz0123456" ++ "`: " ++ "string too long"), Probe.empty) :=
  ⟨by decide, (oversized_basename_rejected quietEnv Probe.empty
    "abcdefghijklmnopqrstuvwxyz0123456" (by decide)).2⟩


/-! ## Handlers return; only a type assertion panics -/

theorem Table.Set_isPanic (env : Env) (p : Probe) (t : String) (k v : Bytes) :
    (Table.Set env p t k v).1.isPanic = false := by
  unfold Table.Set
  cases h : env.setError p.calls ⟨t, k, v⟩ <;> rfl

theorem handleBasenameFilter_isPanic (env : Env) (p : Probe) (approver : Bool) (v : String) :
    (handleBasenameFilter env p approver v).1.isPanic = false := by
  unfold handleBasenameFilter
  cases h : StringToKey v env.BASENAME_FILTER_SIZE with
  | error e => rfl
  | ok key =>
    cases approver
    · exact Table.Set_isPanic env p _ _ _
    · exact Table.Set_isPanic env p _ _ _

theorem handleBasenameFilters_isPanic (env : Env) (approve : Bool) (values : List String)
    (p : Probe) : (handleBasenameFilters env p approve values).1.isPanic = false := by
  induction values generalizing p with
  | nil => rfl
  | cons v vs ih =>
    have hv := handleBasenameFilter_isPanic env p approve v
    rw [handleBasenameFilters]
    rcases h : handleBasenameFilter env p approve v with ⟨o, p1⟩
    rw [h] at hv
    cases o
    · exact ih p1
    · rfl
    · exact hv

theorem filenameLoop_isPanic (env : Env) (approve : Bool) (values : List String) (p : Probe) :
    (filenameLoop env p approve values).1.isPanic = false := by
  induction values generalizing p with
  | nil => rfl
  | cons v vs ih =>
    by_cases hv : v = env.DentryPathKeyNotFound
    · subst hv
      rw [filenameLoop_cons_eq]
      exact ih p
    · rw [filenameLoop_cons_ne env p approve v vs hv]
      have hb := handleBasenameFilter_isPanic env p approve (pathBase v)
      rcases h : handleBasenameFilter env p approve (pathBase v) with ⟨o, p1⟩
      rw [h] at hb
      cases o
      · exact ih p1
      · rfl
      · exact hb

theorem handleFilenameFilters_isPanic (env : Env) (p : Probe) (approve : Bool)
    (values : List String) : (handleFilenameFilters env p approve values).1.isPanic = false := by
  unfold handleFilenameFilters
  cases approve
  · rfl
  · exact filenameLoop_isPanic env true values p

theorem processLoop_isPanic (env : Env) (values : List String) (p : Probe) :
    (processLoop env p values).1.isPanic = false := by
  induction values generalizing p with
  | nil => rfl
  | cons v vs ih =>
    rw [processLoop]
    cases hs : env.osStat v with
    | error e => rfl
    | ok ino =>
      simp only []
      have hb := Table.Set_isPanic env p "open_process_inode_approvers" (Int64ToKey ino)
        Uint8KFilter.Bytes
      rcases h : Table.Set env p "open_process_inode_approvers" (Int64ToKey ino)
        Uint8KFilter.Bytes with ⟨o, p1⟩
      rw [h] at hb
      cases o
      · exact ih p1
      · rfl
      · exact hb

theorem handleProcessFilename_isPanic (env : Env) (p : Probe) (approve : Bool)
    (values : List String) : (handleProcessFilename env p approve values).1.isPanic = false := by
  unfold handleProcessFilename
  cases approve
  · rfl
  · exact processLoop_isPanic env values p

theorem handleFlagsFilters_isPanic (env : Env) (p : Probe) (approve : Bool)
    (values : List Int) : (handleFlagsFilters env p approve values).1.isPanic = false := by
  unfold handleFlagsFilters
  by_cases hz : (accumulate values).value ≠ 0
  · simp only [hz, ne_eq, not_false_eq_true, if_true]
    cases approve
    · exact Table.Set_isPanic env p _ _ _
    · exact Table.Set_isPanic env p _ _ _
  · simp [hz, Outcome.isPanic]

theorem approverField_isPanic (env : Env) (p : Probe) (field : String) (values : FilterValues)
    (ht : wellTypedEntry (field, values) = true) :
    (approverField env p field values).1.isPanic = false := by
  unfold approverField
  unfold wellTypedEntry at ht
  by_cases h1 : field = "process.filename"
  · subst h1
    simp at ht
    obtain ⟨vs, hvs⟩ := Option.isSome_iff_exists.1 ht
    simp only [if_true, hvs]
    exact handleProcessFilename_isPanic env p true vs
  by_cases h2 : field = "open.basename"
  · subst h2
    simp at ht
    obtain ⟨vs, hvs⟩ := Option.isSome_iff_exists.1 ht
    simp only [h1, if_false, if_true, hvs]
    exact handleBasenameFilters_isPanic env true vs p
  by_cases h3 : field = "open.filename"
  · subst h3
    simp at ht
    obtain ⟨vs, hvs⟩ := Option.isSome_iff_exists.1 ht
    simp only [h1, h2, if_false, if_true, hvs]
    exact handleFilenameFilters_isPanic env p true vs
  by_cases h4 : field = "open.flags"
  · subst h4
    simp at ht
    obtain ⟨vs, hvs⟩ := Option.isSome_iff_exists.1 ht
    simp only [h1, h2, h3, if_false, if_true, hvs]
    exact handleFlagsFilters_isPanic env p true vs
  · simp only [h1, h2, h3, h4, if_false]
    rfl

theorem OnNewApprovers_isPanic (env : Env) (approvers : Approvers)
    (ht : wellTyped approvers = true) (p : Probe) :
    (OnNewApprovers env p approvers).1.isPanic = false := by
  induction approvers generalizing p with
  | nil => rfl
  | cons e rest ih =>
    obtain ⟨field, values⟩ := e
    simp only [wellTyped, List.all_cons, Bool.and_eq_true] at ht
    have he := approverField_isPanic env p field values ht.1
    rw [OnNewApprovers]
    rcases h : approverField env p field values with ⟨o, p1⟩
    rw [h] at he
    cases o
    · exact ih ht.2 p1
    · rfl
    · exact he

theorem approverField_unknown (env : Env) (p : Probe) (field : String) (values : FilterValues)
    (hunk : field ∉ knownFields) :
    approverField env p field values = (Outcome.error "field unknown", p) := by
  simp only [knownFields, List.mem_cons, List.mem_singleton, not_or, List.not_mem_nil,
    or_false] at hunk
  simp [approverField, hunk.1, hunk.2.1, hunk.2.2.1, hunk.2.2.2]

theorem OnNewApprovers_unknown (env : Env) (approvers : Approvers) (field : String)
    (hmem : field ∈ approvers.map Prod.fst) (hunk : field ∉ knownFields) (p : Probe) :
    (OnNewApprovers env p approvers).1 ≠ Outcome.nil := by
  induction approvers generalizing p with
  | nil => simp at hmem
  | cons e rest ih =>
    obtain ⟨f, values⟩ := e
    rw [OnNewApprovers]
    by_cases hf : f = field
    · subst hf
      rw [approverField_unknown env p f values hunk]
      simp
    · have hrest : field ∈ rest.map Prod.fst := by
        simp only [List.map_cons, List.mem_cons] at hmem
        rcases hmem with h | h
        · exact absurd h.symm hf
        · exact h
      rcases h : approverField env p f values with ⟨o, p1⟩
      cases o
      · exact ih hrest p1
      · simp
      · simp

theorem Outcome.error_of_not (o : Outcome) (h1 : o ≠ Outcome.nil) (h2 : o.isPanic = false) :
    ∃ msg, o = Outcome.error msg := by
  cases o with
  | nil => exact absurd rfl h1
  | error msg => exact ⟨msg, rfl⟩
  | panic msg => simp [Outcome.isPanic] at h2

/-- C7, the claim as stated fails: on the mapping
`Approvers{"open.basename": [1], "not.a.real.field": []}` visited with
`open.basename` first, the `OnNewApprovers` callback ends in the panic of the
type assertion of `stringValues` before the unknown field is reached, so it
returns no error; visited with the unknown field first, the same mapping returns
the error `field unknown`. -/
theorem unknown_field_behind_panic :
    "not.a.real.field" ∉ knownFields
    ∧ (OnNewApprovers quietEnv Probe.empty
        [("open.basename", [FilterValue.int 1]), ("not.a.real.field", [])]).1
        = Outcome.panic assertionPanic
    ∧ (¬ ∃ msg, (OnNewApprovers quietEnv Probe.empty
        [("open.basename", [FilterValue.int 1]), ("not.a.real.field", [])]).1
          = Outcome.error msg)
    ∧ (OnNewApprovers quietEnv Probe.empty
        [("not.a.real.field", []), ("open.basename", [FilterValue.int 1])]).1
        = Outcome.error "field unknown" := by
  have hp : (OnNewApprovers quietEnv Probe.empty
      [("open.basename", [FilterValue.int 1]), ("not.a.real.field", [])]).1
      = Outcome.panic assertionPanic := by decide
  refine ⟨by decide, hp, ?_, by decide⟩
  rintro ⟨msg, hmsg⟩
  rw [hp] at hmsg
  cases hmsg

/-- C7, amended: when the `Approvers` mapping holds a field name other than
`process.filename`, `open.basename`, `open.filename` and `open.flags`, the
`OnNewApprovers` callback never returns `nil` (the unknown field is never
silently skipped), whatever the other fields and in whatever order the fields
are visited, and it returns an error when the values of the mapping have the
types of their fields; `OnNewDiscarders` with such a field name returns the
error `field unknown` and leaves the probe as it was for every value. -/
theorem unknown_field_is_an_error (env : Env) (p : Probe) (approvers : Approvers)
    (field : String) (hmem : field ∈ approvers.map Prod.fst) (hunk : field ∉ knownFields) :
    (∀ visited : Approvers, visited.Perm approvers →
        (OnNewApprovers env p visited).1 ≠ Outcome.nil
        ∧ (wellTyped approvers = true →
            ∃ msg, (OnNewApprovers env p visited).1 = Outcome.error msg))
    ∧ ∀ value : FilterValue,
        OnNewDiscarders env p ⟨field, value⟩ = (Outcome.error "field unknown", p) := by
  constructor
  · intro visited hperm
    have hmem1 : field ∈ visited.map Prod.fst := (hperm.map Prod.fst).mem_iff.2 hmem
    have hne := OnNewApprovers_unknown env visited field hmem1 hunk p
    refine ⟨hne, fun ht => ?_⟩
    have ht1 : wellTyped visited = true := by
      simp only [wellTyped, List.all_eq_true] at ht ⊢
      exact fun e he => ht e (hperm.mem_iff.1 he)
    exact Outcome.error_of_not _ hne (OnNewApprovers_isPanic env visited ht1 p)
  · intro value
    simp only [knownFields, List.mem_cons, List.mem_singleton, not_or, List.not_mem_nil,
      or_false] at hunk
    simp [OnNewDiscarders, hunk.1, hunk.2.1, hunk.2.2.1, hunk.2.2.2]

/-- C7, amended, at `Approvers{"open.flags": [1], "not.a.real.field": []}`,
visited with the unknown field last: the mapping is well typed, the call does
not return `nil` and returns an error. -/
theorem unknown_field_is_an_error_witness :
    "not.a.real.field" ∉ knownFields
    ∧ wellTyped [("open.flags", [FilterValue.int 1]), ("not.a.real.field", [])] = true
    ∧ (OnNewApprovers quietEnv Probe.empty
        [("open.flags", [FilterValue.int 1]), ("not.a.real.field", [])]).1 ≠ Outcome.nil
    ∧ (∃ msg, (OnNewApprovers quietEnv Probe.empty
        [("open.flags", [FilterValue.int 1]), ("not.a.real.field", [])]).1
          = Outcome.error msg)
    ∧ OnNewDiscarders quietEnv Probe.empty ⟨"not.a.real.field", FilterValue.str "x"⟩
        = (Outcome.error "field unknown", Probe.empty) := by
  have h := unknown_field_is_an_error quietEnv Probe.empty
    [("open.flags", [FilterValue.int 1]), ("not.a.real.field", [])] "not.a.real.field"
    (by decide) (by decide)
  exact ⟨by decide, by decide, (h.1 _ (List.Perm.refl _)).1,
    (h.1 _ (List.Perm.refl _)).2 (by decide), h.2 _⟩


/-! ## Which key a string field writes -/

theorem handleBasenameFilters_single (env : Env) (p : Probe) (approve : Bool) (v : String) :
    handleBasenameFilters env p approve [v] = handleBasenameFilter env p approve v := by
  rw [handleBasenameFilters]
  rcases h : handleBasenameFilter env p approve v with ⟨o, p1⟩
  cases o <;> rfl

theorem handleBasenameFilter_calls (env : Env) (p : Probe) (v : String) (key : Bytes)
    (hk : StringToKey v env.BASENAME_FILTER_SIZE = Except.ok key) :
    (handleBasenameFilter env p true v).2.calls
      = p.calls ++ [⟨"open_basename_approvers", key, zeroInt8⟩] := by
  unfold handleBasenameFilter
  rw [hk]
  simp only [if_true]
  exact Table.Set_calls env p _ _ _

theorem handleBasenameFilter_accepted (env : Env) (p : Probe) (v : String) (key : Bytes)
    (hk : StringToKey v env.BASENAME_FILTER_SIZE = Except.ok key)
    (hs : env.setError p.calls ⟨"open_basename_approvers", key, zeroInt8⟩ = none) :
    (handleBasenameFilter env p true v).1 = Outcome.nil
    ∧ (handleBasenameFilter env p true v).2.tables "open_basename_approvers" key
        = some zeroInt8 := by
  unfold handleBasenameFilter
  rw [hk]
  simp only [if_true]
  rw [Table.Set_accepted env p _ _ _ hs]
  simp [upsert]

/-- C8, the claim as stated fails: handled for `open.filename` in approve mode,
the non-placeholder value `/etc/passwd` makes one `Set` call whose key is the
encoding of `passwd`, which differs from the encoding of the full path, and the
table holds nothing at the encoding of the full path. -/
theorem filename_key_not_full_path :
    "/etc/passwd" ≠ quietEnv.DentryPathKeyNotFound
    ∧ (handleFilenameFilters quietEnv Probe.empty true ["/etc/passwd"]).2.calls
        = [⟨"open_basename_approvers", stringBytes "passwd" ++ List.replicate 26 0, [0]⟩]
    ∧ StringToKey "/etc/passwd" quietEnv.BASENAME_FILTER_SIZE
        = Except.ok (stringBytes "/etc/passwd" ++ List.replicate 21 0)
    ∧ stringBytes "passwd" ++ List.replicate 26 0
        ≠ stringBytes "/etc/passwd" ++ List.replicate 21 0
    ∧ (handleFilenameFilters quietEnv Probe.empty true ["/etc/passwd"]).2.tables
        "open_basename_approvers" (stringBytes "/etc/passwd" ++ List.replicate 21 0) = none := by
  decide

/-- C8, amended: a non-placeholder value `v` handled for `open.filename` in
approve mode is handled as `handleBasenameFilter` handles `path.Base(v)`: when
that last element is encodable, the one `Set` call made writes its encoding as
key, mapped to the presence sentinel, into `open_basename_approvers`. -/
theorem filename_key_is_path_base (env : Env) (p : Probe) (v : String) (key : Bytes)
    (hv : v ≠ env.DentryPathKeyNotFound)
    (hk : StringToKey (pathBase v) env.BASENAME_FILTER_SIZE = Except.ok key) :
    handleFilenameFilters env p true [v] = handleBasenameFilter env p true (pathBase v)
    ∧ (handleFilenameFilters env p true [v]).2.calls
        = p.calls ++ [⟨"open_basename_approvers", key, zeroInt8⟩] := by
  have h1 : handleFilenameFilters env p true [v]
      = handleBasenameFilter env p true (pathBase v) := by
    simp only [handleFilenameFilters, Bool.not_true, Bool.false_eq_true, if_false]
    rw [filenameLoop_cons_ne env p true v [] hv]
    rcases h : handleBasenameFilter env p true (pathBase v) with ⟨o, p1⟩
    cases o <;> rfl
  refine ⟨h1, ?_⟩
  rw [h1]
  exact handleBasenameFilter_calls env p (pathBase v) key hk

/-- C8, amended, at `/etc/passwd`: the key written is the encoding of `passwd`. -/
theorem filename_key_is_path_base_witness :
    (handleFilenameFilters quietEnv Probe.empty true ["/etc/passwd"]).2.calls
      = Probe.empty.calls
        ++ [⟨"open_basename_approvers", stringBytes "passwd" ++ List.replicate 26 0, zeroInt8⟩] :=
  (filename_key_is_path_base quietEnv Probe.empty "/etc/passwd"
    (stringBytes "passwd" ++ List.replicate 26 0) (by decide) (by decide)).2

/-- C9, the claim as stated fails: handled for `open.basename` in approve mode,
the value `/etc/passwd` makes one `Set` call whose key is the encoding of
`/etc/passwd` itself; the encoding of its last path segment `passwd` is another
key, and the table holds nothing there. -/
theorem basename_key_not_last_segment :
    (handleBasenameFilters quietEnv Probe.empty true ["/etc/passwd"]).2.calls
        = [⟨"open_basename_approvers", stringBytes "/etc/passwd" ++ List.replicate 21 0, [0]⟩]
    ∧ StringToKey (pathBase "/etc/passwd") quietEnv.BASENAME_FILTER_SIZE
        = Except.ok (stringBytes "passwd" ++ List.replicate 26 0)
    ∧ stringBytes "/etc/passwd" ++ List.replicate 21 0
        ≠ stringBytes "passwd" ++ List.replicate 26 0
    ∧ (handleBasenameFilters quietEnv Probe.empty true ["/etc/passwd"]).2.tables
        "open_basename_approvers" (stringBytes "passwd" ++ List.replicate 26 0) = none := by
  decide

/-- C9, amended: for an encodable value `v` handled for `open.basename` in
approve mode, the key of the one `Set` call on `open_basename_approvers` is the
encoding of `v` as given (no path segment is taken), the value is the presence
sentinel, and when the write is accepted the call returns `nil` and the table
holds the sentinel at that key. -/
theorem basename_key_is_value (env : Env) (p : Probe) (v : String) (key : Bytes)
    (hk : StringToKey v env.BASENAME_FILTER_SIZE = Except.ok key) :
    (handleBasenameFilters env p true [v]).2.calls
        = p.calls ++ [⟨"open_basename_approvers", key, zeroInt8⟩]
    ∧ (env.setError p.calls ⟨"open_basename_approvers", key, zeroInt8⟩ = none →
        (handleBasenameFilters env p true [v]).1 = Outcome.nil
        ∧ (handleBasenameFilters env p true [v]).2.tables "open_basename_approvers" key
            = some zeroInt8) := by
  rw [handleBasenameFilters_single]
  exact ⟨handleBasenameFilter_calls env p v key hk,
    fun hs => handleBasenameFilter_accepted env p v key hk hs⟩

/-- C9, amended, at `/etc/passwd`: the key written is the encoding of
`/etc/passwd`. -/
theorem basename_key_is_value_witness :
    (handleBasenameFilters quietEnv Probe.empty true ["/etc/passwd"]).2.calls
      = Probe.empty.calls ++ [⟨"open_basename_approvers",
          stringBytes "/etc/passwd" ++ List.replicate 21 0, zeroInt8⟩] :=
  (basename_key_is_value quietEnv Probe.empty "/etc/passwd"
    (stringBytes "/etc/passwd" ++ List.replicate 21 0) (by decide)).1


/-! ## The flags slot across calls -/

theorem handleBasenameFilter_other (env : Env) (p : Probe) (v : String) (n : String)
    (hn : n ≠ "open_basename_approvers") :
    (handleBasenameFilter env p true v).2.tables n = p.tables n := by
  unfold handleBasenameFilter
  cases h : StringToKey v env.BASENAME_FILTER_SIZE with
  | error e => rfl
  | ok key => exact Table.Set_other env p _ _ _ n hn

theorem handleBasenameFilters_other (env : Env) (values : List String) (n : String)
    (hn : n ≠ "open_basename_approvers") (p : Probe) :
    (handleBasenameFilters env p true values).2.tables n = p.tables n := by
  induction values generalizing p with
  | nil => rfl
  | cons v vs ih =>
    have hv := handleBasenameFilter_other env p v n hn
    rw [handleBasenameFilters]
    rcases h : handleBasenameFilter env p true v with ⟨o, p1⟩
    rw [h] at hv
    cases o
    · exact (ih p1).trans hv
    · exact hv
    · exact hv

theorem filenameLoop_other (env : Env) (values : List String) (n : String)
    (hn : n ≠ "open_basename_approvers") (p : Probe) :
    (filenameLoop env p true values).2.tables n = p.tables n := by
  induction values generalizing p with
  | nil => rfl
  | cons v vs ih =>
    by_cases hv : v = env.DentryPathKeyNotFound
    · subst hv
      rw [filenameLoop_cons_eq]
      exact ih p
    · rw [filenameLoop_cons_ne env p true v vs hv]
      have hb := handleBasenameFilter_other env p (pathBase v) n hn
      rcases h : handleBasenameFilter env p true (pathBase v) with ⟨o, p1⟩
      rw [h] at hb
      cases o
      · exact (ih p1).trans hb
      · exact hb
      · exact hb

theorem processLoop_other (env : Env) (values : List String) (n : String)
    (hn : n ≠ "open_process_inode_approvers") (p : Probe) :
    (processLoop env p values).2.tables n = p.tables n := by
  induction values generalizing p with
  | nil => rfl
  | cons v vs ih =>
    rw [processLoop]
    cases hs : env.osStat v with
    | error e => rfl
    | ok ino =>
      simp only []
      have hb := Table.Set_other env p "open_process_inode_approvers" (Int64ToKey ino)
        Uint8KFilter.Bytes n hn
      rcases h : Table.Set env p "open_process_inode_approvers" (Int64ToKey ino)
        Uint8KFilter.Bytes with ⟨o, p1⟩
      rw [h] at hb
      cases o
      · exact (ih p1).trans hb
      · exact hb
      · exact hb

theorem handleFlagsFilters_slot (env : Env) (p : Probe) (approve : Bool) (values : List Int)
    (tbl : String)
    (htbl : tbl = if approve then "open_flags_approvers" else "open_flags_discarders")
    (h : (handleFlagsFilters env p approve values).1 = Outcome.nil) :
    (handleFlagsFilters env p approve values).2.tables tbl zeroInt32
      = slotAfter (p.tables tbl zeroInt32) [(accumulate values).value] := by
  subst htbl
  unfold handleFlagsFilters at h ⊢
  by_cases hz : (accumulate values).value ≠ 0
  · simp only [hz, ne_eq, not_false_eq_true, if_true] at h ⊢
    cases approve
    · simp only [Bool.false_eq_true, if_false] at h ⊢
      rw [Table.Set_nil env p _ _ _ h]
      simp [upsert, slotAfter, hz]
    · simp only [if_true] at h ⊢
      rw [Table.Set_nil env p _ _ _ h]
      simp [upsert, slotAfter, hz]
  · have hz0 : (accumulate values).value = 0 := by simpa using hz
    simp [hz0, slotAfter]

theorem slotAfter_append (slot : Option Bytes) (xs ys : List Nat) :
    slotAfter slot (xs ++ ys) = slotAfter (slotAfter slot xs) ys := by
  simp [slotAfter, List.foldl_append]

theorem slotAfter_map (s : Option Nat) (accs : List Nat) :
    slotAfter (s.map (fun a => Uint32KFilter.Bytes ⟨a⟩)) accs
      = (accs.foldl (fun s a => if a ≠ 0 then some a else s) s).map
          (fun a => Uint32KFilter.Bytes ⟨a⟩) := by
  induction accs generalizing s with
  | nil => rfl
  | cons a rest ih =>
    simp only [slotAfter, List.foldl_cons] at ih ⊢
    by_cases ha : a ≠ 0
    · simp only [ha, ne_eq, not_false_eq_true, if_true]
      exact ih (some a)
    · simp only [ha, if_false]
      exact ih s

theorem slotAfter_none (accs : List Nat) :
    slotAfter none accs = (lastNonZero accs).map (fun a => Uint32KFilter.Bytes ⟨a⟩) :=
  slotAfter_map none accs

theorem approverField_slot (env : Env) (p : Probe) (field : String) (values : FilterValues)
    (h : (approverField env p field values).1 = Outcome.nil) :
    (approverField env p field values).2.tables "open_flags_approvers" zeroInt32
      = slotAfter (p.tables "open_flags_approvers" zeroInt32)
          (flagAccumulators [(field, values)]) := by
  unfold approverField at h ⊢
  by_cases h1 : field = "process.filename"
  · subst h1
    simp only [if_true] at h ⊢
    cases hv : stringValues values with
    | none => simp [hv] at h
    | some vs =>
      simp only [handleProcessFilename, Bool.not_true, Bool.false_eq_true, if_false]
      rw [processLoop_other env vs _ (by decide) p]
      simp [flagAccumulators, slotAfter]
  by_cases h2 : field = "open.basename"
  · subst h2
    simp only [h1, if_false, if_true] at h ⊢
    cases hv : stringValues values with
    | none => simp [hv] at h
    | some vs =>
      simp only []
      rw [handleBasenameFilters_other env vs _ (by decide) p]
      simp [flagAccumulators, slotAfter]
  by_cases h3 : field = "open.filename"
  · subst h3
    simp only [h1, h2, if_false, if_true] at h ⊢
    cases hv : stringValues values with
    | none => simp [hv] at h
    | some vs =>
      simp only [handleFilenameFilters, Bool.not_true, Bool.false_eq_true, if_false]
      rw [filenameLoop_other env vs _ (by decide) p]
      simp [flagAccumulators, slotAfter]
  by_cases h4 : field = "open.flags"
  · subst h4
    simp only [h1, h2, h3, if_false, if_true] at h ⊢
    cases hv : intValues values with
    | none => simp [hv] at h
    | some vs =>
      simp only [hv] at h ⊢
      rw [handleFlagsFilters_slot env p true vs "open_flags_approvers" rfl h]
      simp [flagAccumulators, hv]
  · simp [h1, h2, h3, h4] at h

theorem OnNewApprovers_slot (env : Env) (a : Approvers) (p : Probe)
    (h : (OnNewApprovers env p a).1 = Outcome.nil) :
    (OnNewApprovers env p a).2.tables "open_flags_approvers" zeroInt32
      = slotAfter (p.tables "open_flags_approvers" zeroInt32) (flagAccumulators a) := by
  induction a generalizing p with
  | nil => rfl
  | cons e rest ih =>
    obtain ⟨field, values⟩ := e
    rw [OnNewApprovers] at h ⊢
    have hs := approverField_slot env p field values
    rcases hf : approverField env p field values with ⟨o, p1⟩
    rw [hf] at h hs
    cases o
    · simp only [] at h ⊢
      rw [ih p1 h, hs rfl]
      rw [show flagAccumulators ((field, values) :: rest)
        = flagAccumulators [(field, values)] ++ flagAccumulators rest from by
          simp [flagAccumulators, List.filterMap_cons]
          split <;> simp]
      rw [slotAfter_append]
    · simp at h
    · simp at h

theorem callApprovers_slot (env : Env) (calls : List Approvers) (p : Probe)
    (h : ∀ o ∈ (callApprovers env p calls).1, o = Outcome.nil) :
    (callApprovers env p calls).2.tables "open_flags_approvers" zeroInt32
      = slotAfter (p.tables "open_flags_approvers" zeroInt32)
          (calls.flatMap flagAccumulators) := by
  induction calls generalizing p with
  | nil => rfl
  | cons a rest ih =>
    simp only [callApprovers, List.mem_cons, forall_eq_or_imp] at h ⊢
    rw [ih _ h.2, OnNewApprovers_slot env a p h.1, List.flatMap_cons, slotAfter_append]

theorem OnNewDiscarders_flags (env : Env) (p : Probe) (v : Int) :
    OnNewDiscarders env p ⟨"open.flags", FilterValue.int v⟩
      = handleFlagsFilters env p false [v] := by
  simp [OnNewDiscarders, FilterValue.asInt]

theorem accumulate_single (v : Int) : (accumulate [v]).value = uint32 v := by
  simp [accumulate]

theorem callDiscarders_slot (env : Env) (values : List Int) (p : Probe)
    (h : ∀ o ∈ (callDiscarders env p
        (values.map (fun v => (⟨"open.flags", FilterValue.int v⟩ : Discarder)))).1,
          o = Outcome.nil) :
    (callDiscarders env p
        (values.map (fun v => (⟨"open.flags", FilterValue.int v⟩ : Discarder)))).2.tables
        "open_flags_discarders" zeroInt32
      = slotAfter (p.tables "open_flags_discarders" zeroInt32) (values.map uint32) := by
  induction values generalizing p with
  | nil => rfl
  | cons v rest ih =>
    simp only [List.map_cons, callDiscarders, List.mem_cons, forall_eq_or_imp] at h ⊢
    rw [ih _ h.2]
    rw [OnNewDiscarders_flags] at h ⊢
    rw [handleFlagsFilters_slot env p false [v] "open_flags_discarders" rfl h.1,
      accumulate_single]
    rw [← slotAfter_append]
    rfl

/-- C10, the claim as stated fails: from empty tables, the two successful
`OnNewDiscarders` calls for `open.flags` with values `1` and `2` leave the bytes
of `2` at the zero key of `open_flags_discarders`, not the bytes of `1 | 2 = 3`;
likewise two successful `OnNewApprovers` calls carrying `open.flags: [1]` and
`open.flags: [2]` leave the bytes of `2` in `open_flags_approvers`. -/
theorem flags_slot_not_or_across_calls :
    (callDiscarders quietEnv Probe.empty
        [⟨"open.flags", FilterValue.int 1⟩, ⟨"open.flags", FilterValue.int 2⟩]).1
        = [Outcome.nil, Outcome.nil]
    ∧ (callDiscarders quietEnv Probe.empty
        [⟨"open.flags", FilterValue.int 1⟩, ⟨"open.flags", FilterValue.int 2⟩]).2.tables
        "open_flags_discarders" zeroInt32 = some [2, 0, 0, 0]
    ∧ (callApprovers quietEnv Probe.empty
        [[("open.flags", [FilterValue.int 1])], [("open.flags", [FilterValue.int 2])]]).1
        = [Outcome.nil, Outcome.nil]
    ∧ (callApprovers quietEnv Probe.empty
        [[("open.flags", [FilterValue.int 1])], [("open.flags", [FilterValue.int 2])]]).2.tables
        "open_flags_approvers" zeroInt32 = some [2, 0, 0, 0]
    ∧ orAll [uint32 1, uint32 2] = 3
    ∧ Uint32KFilter.Bytes ⟨orAll [uint32 1, uint32 2]⟩ = [3, 0, 0, 0] := by
  decide

/-- C10, amended: each flags table holds in its zero-key slot the accumulator of
the most recent call that had a non-zero one. Starting from empty tables, after a
sequence of successful `OnNewDiscarders` calls for `open.flags` the slot of
`open_flags_discarders` holds the bytes of the last non-zero `uint32` flag value
supplied, and after a sequence of successful `OnNewApprovers` calls the slot of
`open_flags_approvers` holds the bytes of the last non-zero OR computed for an
`open.flags` entry; the slot is empty when there was none. -/
theorem flags_slot_holds_last_accumulator (env : Env) :
    (∀ values : List Int,
      (∀ o ∈ (callDiscarders env Probe.empty
          (values.map (fun v => (⟨"open.flags", FilterValue.int v⟩ : Discarder)))).1,
            o = Outcome.nil) →
      (callDiscarders env Probe.empty
          (values.map (fun v => (⟨"open.flags", FilterValue.int v⟩ : Discarder)))).2.tables
          "open_flags_discarders" zeroInt32
        = (lastNonZero (values.map uint32)).map (fun a => Uint32KFilter.Bytes ⟨a⟩))
    ∧ (∀ calls : List Approvers,
      (∀ o ∈ (callApprovers env Probe.empty calls).1, o = Outcome.nil) →
      (callApprovers env Probe.empty calls).2.tables "open_flags_approvers" zeroInt32
        = (lastNonZero (calls.flatMap flagAccumulators)).map
            (fun a => Uint32KFilter.Bytes ⟨a⟩)) := by
  constructor
  · intro values h
    rw [callDiscarders_slot env values Probe.empty h]
    exact slotAfter_none _
  · intro calls h
    rw [callApprovers_slot env calls Probe.empty h]
    exact slotAfter_none _

/-- C10, amended, at the discarded values `1` then `2`, and at the approver calls
`open.flags: [1, 4]` then `open.flags: [2]` with `open.basename: ["passwd"]`: the
slot holds the bytes of `2`. -/
theorem flags_slot_holds_last_accumulator_witness :
    (callDiscarders quietEnv Probe.empty
        ([1, 2].map (fun v => (⟨"open.flags", FilterValue.int v⟩ : Discarder)))).2.tables
        "open_flags_discarders" zeroInt32
      = (lastNonZero ([1, 2].map uint32)).map (fun a => Uint32KFilter.Bytes ⟨a⟩)
    ∧ (callApprovers quietEnv Probe.empty
        [[("open.flags", [FilterValue.int 1, FilterValue.int 4])],
         [("open.basename", [FilterValue.str "passwd"]),
          ("open.flags", [FilterValue.int 2])]]).2.tables "open_flags_approvers" zeroInt32
      = some [2, 0, 0, 0] := by
  have h := flags_slot_holds_last_accumulator quietEnv
  refine ⟨h.1 [1, 2] (by decide), ?_⟩
  rw [h.2 _ (by decide)]
  decide

/-! ## Panics of the two callbacks -/

theorem OnNewDiscarders_isPanic (env : Env) (p : Probe) (d : Discarder)
    (ht : wellTypedEntry (d.Field, [d.Value]) = true) :
    (OnNewDiscarders env p d).1.isPanic = false := by
  obtain ⟨field, value⟩ := d
  unfold OnNewDiscarders
  unfold wellTypedEntry at ht
  simp only at ht ⊢
  by_cases h1 : field = "process.filename"
  · subst h1
    cases value with
    | str s => exact handleProcessFilename_isPanic env p false [s]
    | int n => simp [stringValues, FilterValue.asString] at ht
  by_cases h2 : field = "open.basename"
  · subst h2
    cases value with
    | str s =>
      simp only [h1, if_false, if_true, FilterValue.asString]
      exact handleBasenameFilters_isPanic env false [s] p
    | int n => simp [stringValues, FilterValue.asString] at ht
  by_cases h3 : field = "open.filename"
  · subst h3
    cases value with
    | str s =>
      simp only [h1, h2, if_false, if_true, FilterValue.asString]
      exact handleFilenameFilters_isPanic env p false [s]
    | int n => simp [stringValues, FilterValue.asString] at ht
  by_cases h4 : field = "open.flags"
  · subst h4
    cases value with
    | str s => simp [intValues, FilterValue.asInt] at ht
    | int n =>
      simp only [h1, h2, h3, if_false, if_true, FilterValue.asInt]
      exact handleFlagsFilters_isPanic env p false [n]
  · simp only [h1, h2, h3, h4, if_false]
    rfl

theorem OnNewDiscarders_panics (env : Env) (p : Probe) (d : Discarder)
    (ht : wellTypedEntry (d.Field, [d.Value]) = false) :
    OnNewDiscarders env p d = (Outcome.panic assertionPanic, p) := by
  obtain ⟨field, value⟩ := d
  unfold OnNewDiscarders
  unfold wellTypedEntry at ht
  simp only at ht ⊢
  by_cases h4 : field = "open.flags"
  · subst h4
    cases value with
    | str s => simp [FilterValue.asInt]
    | int n => simp [intValues, FilterValue.asInt] at ht
  by_cases h1 : field = "process.filename"
  · subst h1
    cases value with
    | str s => simp [stringValues, FilterValue.asString] at ht
    | int n => simp [FilterValue.asString]
  by_cases h2 : field = "open.basename"
  · subst h2
    cases value with
    | str s => simp [stringValues, FilterValue.asString] at ht
    | int n => simp [FilterValue.asString]
  by_cases h3 : field = "open.filename"
  · subst h3
    cases value with
    | str s => simp [stringValues, FilterValue.asString] at ht
    | int n => simp [FilterValue.asString]
  · simp [h1, h2, h3, h4] at ht

theorem Outcome.returns_of_not_panic (o : Outcome) (h : o.isPanic = false) :
    o = Outcome.nil ∨ ∃ msg, o = Outcome.error msg := by
  cases o with
  | nil => exact Or.inl rfl
  | error msg => exact Or.inr ⟨msg, rfl⟩
  | panic msg => simp [Outcome.isPanic] at h

/-- C11, the claim as stated fails: `OnNewDiscarders` on the field `open.flags`
with a string value, and `OnNewApprovers` on `open.basename` with an integer
value, end in the panic of the failed type assertion instead of returning. -/
theorem ill_typed_value_panics :
    OnNewDiscarders quietEnv Probe.empty ⟨"open.flags", FilterValue.str "O_RDONLY"⟩
        = (Outcome.panic assertionPanic, Probe.empty)
    ∧ (OnNewDiscarders quietEnv Probe.empty ⟨"open.basename", FilterValue.int 1⟩).1
        = Outcome.panic assertionPanic
    ∧ (OnNewApprovers quietEnv Probe.empty [("open.basename", [FilterValue.int 1])]).1
        = Outcome.panic assertionPanic := by
  refine ⟨?_, by decide, by decide⟩
  simp [OnNewDiscarders, FilterValue.asInt]

/-- C11, amended: the callbacks return (`nil` or an error value, never a panic)
whenever the values have the type of their field: for every `Discarder` whose
value is a string under `process.filename`, `open.basename` or `open.filename`,
an integer under `open.flags`, or anything under another field name, and for
every `Approvers` mapping typed so. A `Discarder` typed otherwise ends in the
panic of the type assertion, before any table write. -/
theorem typed_callbacks_return (env : Env) (p : Probe) :
    (∀ d : Discarder, wellTypedEntry (d.Field, [d.Value]) = true →
        ((OnNewDiscarders env p d).1 = Outcome.nil
          ∨ ∃ msg, (OnNewDiscarders env p d).1 = Outcome.error msg))
    ∧ (∀ approvers : Approvers, wellTyped approvers = true →
        ((OnNewApprovers env p approvers).1 = Outcome.nil
          ∨ ∃ msg, (OnNewApprovers env p approvers).1 = Outcome.error msg))
    ∧ (∀ d : Discarder, wellTypedEntry (d.Field, [d.Value]) = false →
        OnNewDiscarders env p d = (Outcome.panic assertionPanic, p)) :=
  ⟨fun d ht => Outcome.returns_of_not_panic _ (OnNewDiscarders_isPanic env p d ht),
   fun a ht => Outcome.returns_of_not_panic _ (OnNewApprovers_isPanic env a ht p),
   fun d ht => OnNewDiscarders_panics env p d ht⟩

/-- C11, amended, at `Discarder{"open.flags", 1}` and at
`Approvers{"open.basename": ["passwd"], "open.flags": [1, 2]}`. -/
theorem typed_callbacks_return_witness :
    ((OnNewDiscarders quietEnv Probe.empty ⟨"open.flags", FilterValue.int 1⟩).1 = Outcome.nil
      ∨ ∃ msg, (OnNewDiscarders quietEnv Probe.empty ⟨"open.flags", FilterValue.int 1⟩).1
          = Outcome.error msg)
    ∧ ((OnNewApprovers quietEnv Probe.empty
          [("open.basename", [FilterValue.str "passwd"]),
           ("open.flags", [FilterValue.int 1, FilterValue.int 2])]).1 = Outcome.nil
      ∨ ∃ msg, (OnNewApprovers quietEnv Probe.empty
          [("open.basename", [FilterValue.str "passwd"]),
           ("open.flags", [FilterValue.int 1, FilterValue.int 2])]).1 = Outcome.error msg) :=
  ⟨(typed_callbacks_return quietEnv Probe.empty).1 _ (by decide),
   (typed_callbacks_return quietEnv Probe.empty).2.1 _ (by decide)⟩

/-! ## A failing value aborts the call; earlier writes stay -/

theorem handleBasenameFilters_append (env : Env) (approve : Bool) (xs zs : List String)
    (p : Probe) (h : (handleBasenameFilters env p approve xs).1 = Outcome.nil) :
    handleBasenameFilters env p approve (xs ++ zs)
      = handleBasenameFilters env (handleBasenameFilters env p approve xs).2 approve zs := by
  induction xs generalizing p with
  | nil => rfl
  | cons v vs ih =>
    rw [List.cons_append, handleBasenameFilters]
    rw [handleBasenameFilters] at h ⊢
    rcases hv : handleBasenameFilter env p approve v with ⟨o, p1⟩
    rw [hv] at h
    cases o
    · exact ih p1 h
    · simp at h
    · simp at h

/-- C12: for a value list `xs ++ [bad] ++ ys` with every value of `xs` no longer
than `BASENAME_FILTER_SIZE`, `bad` longer, and table writes succeeding,
`handleBasenameFilters` (either mode) returns the key-generation error for `bad`
and leaves the probe exactly as handling `xs` alone leaves it: the `Set` calls
made are one per value of `xs` and none for `bad` or for `ys`, and the target
table holds the sentinel at the key of every value of `xs` (nothing is rolled
back). -/
theorem basename_abort_keeps_earlier_writes (env : Env) (p : Probe) (approve : Bool)
    (xs ys : List String) (bad : String)
    (hxs : ∀ v ∈ xs, len v ≤ env.BASENAME_FILTER_SIZE)
    (hbad : len bad > env.BASENAME_FILTER_SIZE)
    (hset : ∀ h c, env.setError h c = none) :
    handleBasenameFilters env p approve (xs ++ [bad] ++ ys)
        = (Outcome.error ("unable to generate a key for `" ++ bad ++ "`: " ++ "string too long"),
            (handleBasenameFilters env p approve xs).2)
    ∧ (handleBasenameFilters env p approve (xs ++ [bad] ++ ys)).2.calls
        = p.calls ++ xs.map (fun v =>
            ⟨if approve then "open_basename_approvers" else "open_basename_discarders",
              stringBytes v ++ List.replicate (env.BASENAME_FILTER_SIZE - len v) 0, zeroInt8⟩)
    ∧ ∀ v ∈ xs, ∀ k, StringToKey v env.BASENAME_FILTER_SIZE = Except.ok k →
        (handleBasenameFilters env p approve (xs ++ [bad] ++ ys)).2.tables
          (if approve then "open_basename_approvers" else "open_basename_discarders") k
            = some zeroInt8 := by
  have hacc := handleBasenameFilters_accepted env approve xs hxs hset p
  have hnil : (handleBasenameFilters env p approve xs).1 = Outcome.nil := by rw [hacc]
  have hrun : handleBasenameFilters env p approve (xs ++ [bad] ++ ys)
      = (Outcome.error ("unable to generate a key for `" ++ bad ++ "`: " ++ "string too long"),
          (handleBasenameFilters env p approve xs).2) := by
    rw [List.append_assoc, handleBasenameFilters_append env approve xs ([bad] ++ ys) p hnil]
    rw [List.singleton_append, handleBasenameFilters]
    have hb : handleBasenameFilter env (handleBasenameFilters env p approve xs).2 approve bad
        = (Outcome.error ("unable to generate a key for `" ++ bad ++ "`: "
            ++ "string too long"), (handleBasenameFilters env p approve xs).2) := by
      unfold handleBasenameFilter
      rw [StringToKey_too_long bad _ hbad]
    rw [hb]
  refine ⟨hrun, ?_, ?_⟩
  · rw [hrun, hacc]
  · intro v hv k hk
    rw [hrun]
    exact (basename_entries env p approve xs hxs hset _ rfl).2.1 k ⟨v, hv, hk⟩

/-- C12, at `["passwd"] ++ [bad] ++ ["shadow"]` with `bad` of 33 bytes and key
width 32, approve mode from the empty probe: one `Set` call, for `passwd`. -/
theorem basename_abort_keeps_earlier_writes_witness :
    (handleBasenameFilters quietEnv Probe.empty true
        (["passwd"] ++ ["abcdefghijklmnopqrstuvwxyz0123456"] ++ ["shadow"])).1
      = Outcome.error ("unable to generate a key for `"
          ++ "abcdefghijklmnopqrstuvwxyz0123456" ++ "`: " ++ "string too long")
    ∧ (handleBasenameFilters quietEnv Probe.empty true
        (["passwd"] ++ ["abcdefghijklmnopqrstuvwxyz0123456"] ++ ["shadow"])).2.calls
      = [⟨"open_basename_approvers", stringBytes "passwd" ++ List.replicate 26 0, [0]⟩] := by
  have h := basename_abort_keeps_earlier_writes quietEnv Probe.empty true ["passwd"]
    ["shadow"] "abcdefghijklmnopqrstuvwxyz0123456" (by decide) (by decide) (fun _ _ => rfl)
  refine ⟨by rw [h.1], ?_⟩
  rw [h.2.1]
  decide

/-! ## The writes of a successful compilation -/

theorem applyAll_append (xs ys : List SetCall) (T : String → Bytes → Option Bytes) :
    applyAll (xs ++ ys) T = applyAll ys (applyAll xs T) := by
  simp [applyAll, List.foldl_append]

theorem applyAll_miss (ws : List SetCall) (T : String → Bytes → Option Bytes) (n : String)
    (k : Bytes) (h : ∀ c ∈ ws, ¬ (c.table = n ∧ c.key = k)) : applyAll ws T n k = T n k := by
  induction ws generalizing T with
  | nil => rfl
  | cons c cs ih =>
    simp only [applyAll, List.foldl_cons] at ih ⊢
    rw [ih _ (fun d hd => h d (List.mem_cons_of_mem c hd))]
    have hc := h c (List.mem_cons_self c cs)
    simp only [upsert]
    rw [if_neg (fun hn => hc ⟨hn.1.symm, hn.2.symm⟩)]

theorem applyAll_hit (ws : List SetCall) (T : String → Bytes → Option Bytes) (c : SetCall)
    (hcons : Consistent ws) (hc : c ∈ ws) : applyAll ws T c.table c.key = some c.value := by
  induction ws using List.reverseRecOn with
  | nil => simp at hc
  | append_singleton l d ih =>
    rw [applyAll_append]
    simp only [applyAll, List.foldl_cons, List.foldl_nil, upsert]
    by_cases hd : c.table = d.table ∧ c.key = d.key
    · rw [if_pos hd]
      have := hcons d (by simp) c hc hd.1.symm hd.2.symm
      rw [this]
    · rw [if_neg hd]
      have hcl : c ∈ l := by
        rcases List.mem_append.1 hc with h | h
        · exact h
        · simp only [List.mem_singleton] at h
          subst h
          exact absurd ⟨rfl, rfl⟩ hd
      have hl : Consistent l := fun x hx y hy =>
        hcons x (List.mem_append_left _ hx) y (List.mem_append_left _ hy)
      exact ih hl hcl

theorem Table.Set_nil_eq (env : Env) (p : Probe) (t : String) (k v : Bytes)
    (h : (Table.Set env p t k v).1 = Outcome.nil) :
    Table.Set env p t k v = (Outcome.nil, ⟨upsert p.tables t k v, p.calls ++ [⟨t, k, v⟩]⟩) := by
  unfold Table.Set at h ⊢
  cases hs : env.setError p.calls ⟨t, k, v⟩ <;> simp_all

theorem handleBasenameFilter_nil (env : Env) (p : Probe) (v : String)
    (h : (handleBasenameFilter env p true v).1 = Outcome.nil) :
    handleBasenameFilter env p true v
      = (Outcome.nil, ⟨applyAll (basenameWrites env [v]) p.tables,
          p.calls ++ basenameWrites env [v]⟩) := by
  unfold handleBasenameFilter at h ⊢
  cases hk : StringToKey v env.BASENAME_FILTER_SIZE with
  | error e => simp [hk] at h
  | ok key =>
    simp only [hk, if_true] at h ⊢
    rw [Table.Set_nil_eq env p _ _ _ h]
    simp [basenameWrites, hk, applyAll]

theorem basenameWrites_cons (env : Env) (v : String) (vs : List String) :
    basenameWrites env (v :: vs) = basenameWrites env [v] ++ basenameWrites env vs := by
  simp only [basenameWrites, List.filterMap_cons, List.filterMap_nil]
  split <;> simp

theorem handleBasenameFilters_nil (env : Env) (values : List String) (p : Probe)
    (h : (handleBasenameFilters env p true values).1 = Outcome.nil) :
    handleBasenameFilters env p true values
      = (Outcome.nil, ⟨applyAll (basenameWrites env values) p.tables,
          p.calls ++ basenameWrites env values⟩) := by
  induction values generalizing p with
  | nil => simp [handleBasenameFilters, basenameWrites, applyAll]
  | cons v vs ih =>
    rw [handleBasenameFilters] at h ⊢
    have hv := handleBasenameFilter_nil env p v
    rcases hb : handleBasenameFilter env p true v with ⟨o, p1⟩
    rw [hb] at h hv
    cases o
    · simp only [] at h ⊢
      rw [ih p1 h]
      have hp1 : p1 = ⟨applyAll (basenameWrites env [v]) p.tables,
          p.calls ++ basenameWrites env [v]⟩ := (Prod.mk.inj (hv rfl)).2
      rw [basenameWrites_cons env v vs, applyAll_append, ← List.append_assoc, hp1]
    · simp at h
    · simp at h

theorem filenameLoop_map_base (env : Env) (values : List String)
    (hv : ∀ v ∈ values, v ≠ env.DentryPathKeyNotFound) (p : Probe) :
    filenameLoop env p true values = handleBasenameFilters env p true (values.map pathBase) := by
  induction values generalizing p with
  | nil => rfl
  | cons v vs ih =>
    rw [filenameLoop_cons_ne env p true v vs (hv v (List.mem_cons_self v vs))]
    rw [List.map_cons, handleBasenameFilters]
    rcases hb : handleBasenameFilter env p true (pathBase v) with ⟨o, p1⟩
    cases o
    · exact ih (fun w hw => hv w (List.mem_cons_of_mem v hw)) p1
    · rfl
    · rfl

theorem handleFilenameFilters_eq (env : Env) (values : List String) (p : Probe) :
    handleFilenameFilters env p true values
      = handleBasenameFilters env p true
          ((values.filter (fun v => decide (v ≠ env.DentryPathKeyNotFound))).map pathBase) := by
  simp only [handleFilenameFilters, Bool.not_true, Bool.false_eq_true, if_false]
  rw [filenameLoop_filter]
  exact filenameLoop_map_base env _ (fun v hv => by simpa using (List.mem_filter.1 hv).2) p

theorem handleFilenameFilters_nil (env : Env) (values : List String) (p : Probe)
    (h : (handleFilenameFilters env p true values).1 = Outcome.nil) :
    handleFilenameFilters env p true values
      = (Outcome.nil, ⟨applyAll (filenameWrites env values) p.tables,
          p.calls ++ filenameWrites env values⟩) := by
  have hloop : handleFilenameFilters env p true values
      = handleBasenameFilters env p true
          ((values.filter (fun v => decide (v ≠ env.DentryPathKeyNotFound))).map pathBase) := by
    simp only [handleFilenameFilters, Bool.not_true, Bool.false_eq_true, if_false]
    rw [filenameLoop_filter]
    exact filenameLoop_map_base env _ (fun v hv => by simpa using (List.mem_filter.1 hv).2) p
  rw [hloop] at h ⊢
  exact handleBasenameFilters_nil env _ p h

theorem handleFlagsFilters_nil (env : Env) (values : List Int) (p : Probe)
    (h : (handleFlagsFilters env p true values).1 = Outcome.nil) :
    handleFlagsFilters env p true values
      = (Outcome.nil, ⟨applyAll (flagsWrites values) p.tables,
          p.calls ++ flagsWrites values⟩) := by
  unfold handleFlagsFilters at h ⊢
  by_cases hz : (accumulate values).value ≠ 0
  · simp only [hz, ne_eq, not_false_eq_true, if_true] at h ⊢
    rw [Table.Set_nil_eq env p _ _ _ h]
    simp [flagsWrites, hz, applyAll]
  · have hz0 : (accumulate values).value = 0 := by simpa using hz
    simp [flagsWrites, hz0, applyAll]

theorem approverField_nil (env : Env) (p : Probe) (field : String) (values : FilterValues)
    (hf : field = "open.basename" ∨ field = "open.filename" ∨ field = "open.flags")
    (h : (approverField env p field values).1 = Outcome.nil) :
    approverField env p field values
      = (Outcome.nil, ⟨applyAll (entryWrites env (field, values)) p.tables,
          p.calls ++ entryWrites env (field, values)⟩) := by
  unfold approverField at h ⊢
  unfold entryWrites
  rcases hf with hf | hf | hf
  · subst hf
    simp only [String.reduceEq, if_false, if_true] at h ⊢
    cases hv : stringValues values with
    | none => simp [hv] at h
    | some vs =>
      simp only [hv] at h ⊢
      exact handleBasenameFilters_nil env vs p h
  · subst hf
    simp only [String.reduceEq, if_false, if_true] at h ⊢
    cases hv : stringValues values with
    | none => simp [hv] at h
    | some vs =>
      simp only [hv] at h ⊢
      exact handleFilenameFilters_nil env vs p h
  · subst hf
    simp only [String.reduceEq, if_false, if_true] at h ⊢
    cases hv : intValues values with
    | none => simp [hv] at h
    | some vs =>
      simp only [hv] at h ⊢
      exact handleFlagsFilters_nil env vs p h

theorem OnNewApprovers_nil (env : Env) (a : Approvers)
    (hf : ∀ e ∈ a, e.1 = "open.basename" ∨ e.1 = "open.filename" ∨ e.1 = "open.flags")
    (p : Probe) (h : (OnNewApprovers env p a).1 = Outcome.nil) :
    OnNewApprovers env p a
      = (Outcome.nil, ⟨applyAll (a.flatMap (entryWrites env)) p.tables,
          p.calls ++ a.flatMap (entryWrites env)⟩) := by
  induction a generalizing p with
  | nil => simp [OnNewApprovers, applyAll]
  | cons e rest ih =>
    obtain ⟨field, values⟩ := e
    rw [OnNewApprovers] at h ⊢
    have he := approverField_nil env p field values (hf _ (List.mem_cons_self _ _))
    rcases hb : approverField env p field values with ⟨o, p1⟩
    rw [hb] at h he
    cases o
    · simp only [] at h ⊢
      rw [ih (fun x hx => hf x (List.mem_cons_of_mem _ hx)) p1 h]
      have hp1 : p1 = ⟨applyAll (entryWrites env (field, values)) p.tables,
          p.calls ++ entryWrites env (field, values)⟩ := (Prod.mk.inj (he rfl)).2
      rw [List.flatMap_cons, applyAll_append, ← List.append_assoc, hp1]
    · simp at h
    · simp at h

theorem basenameWrites_shape (env : Env) (values : List String) (c : SetCall)
    (hc : c ∈ basenameWrites env values) :
    c.table = "open_basename_approvers" ∧ c.value = zeroInt8 := by
  simp only [basenameWrites, List.mem_filterMap] at hc
  obtain ⟨v, _, hv⟩ := hc
  cases hk : StringToKey v env.BASENAME_FILTER_SIZE with
  | error e => simp [hk] at hv
  | ok key =>
    simp only [hk, Option.some.injEq] at hv
    subst hv
    exact ⟨rfl, rfl⟩

theorem entryWrites_shape (env : Env) (e : String × FilterValues) (c : SetCall)
    (hc : c ∈ entryWrites env e) :
    (c.table = "open_basename_approvers" ∧ c.value = zeroInt8)
    ∨ (e.1 = "open.flags" ∧ c.table = "open_flags_approvers"
        ∧ ∃ vs, intValues e.2 = some vs
          ∧ c = ⟨"open_flags_approvers", zeroInt32, (accumulate vs).Bytes⟩) := by
  unfold entryWrites at hc
  by_cases h1 : e.1 = "open.basename"
  · simp only [h1, if_true] at hc
    cases hv : stringValues e.2 with
    | none => simp [hv] at hc
    | some vs =>
      simp only [hv] at hc
      exact Or.inl (basenameWrites_shape env vs c hc)
  by_cases h2 : e.1 = "open.filename"
  · simp only [h1, h2, if_false, if_true] at hc
    cases hv : stringValues e.2 with
    | none => simp [hv] at hc
    | some vs =>
      simp only [hv, filenameWrites] at hc
      exact Or.inl (basenameWrites_shape env _ c hc)
  by_cases h3 : e.1 = "open.flags"
  · rw [if_neg h1, if_neg h2, if_pos h3] at hc
    cases hv : intValues e.2 with
    | none => simp [hv] at hc
    | some vs =>
      simp only [hv, flagsWrites] at hc
      by_cases hz : (accumulate vs).value ≠ 0
      · simp only [hz, ne_eq, not_false_eq_true, if_true, List.mem_singleton] at hc
        subst hc
        exact Or.inr ⟨h3, rfl, vs, rfl, rfl⟩
      · simp [hz] at hc
  · simp [h1, h2, h3] at hc

theorem plannedWrites_consistent (env : Env) (a : Approvers)
    (hnodup : (a.map Prod.fst).Nodup) : Consistent (a.flatMap (entryWrites env)) := by
  intro c hc d hd ht _
  obtain ⟨e1, he1, hc1⟩ := List.mem_flatMap.1 hc
  obtain ⟨e2, he2, hd2⟩ := List.mem_flatMap.1 hd
  rcases entryWrites_shape env e1 c hc1 with ⟨hct, hcv⟩ | ⟨hf1, hct, vs1, hv1, hc'⟩
  · rcases entryWrites_shape env e2 d hd2 with ⟨_, hdv⟩ | ⟨_, hdt, _⟩
    · rw [hcv, hdv]
    · rw [hct, hdt] at ht
      exact absurd ht (by decide)
  · rcases entryWrites_shape env e2 d hd2 with ⟨hdt, _⟩ | ⟨hf2, _, vs2, hv2, hd'⟩
    · rw [hct, hdt] at ht
      exact absurd ht (by decide)
    · have hee : e1 = e2 := List.inj_on_of_nodup_map hnodup he1 he2 (hf1.trans hf2.symm)
      subst hee
      rw [hv1] at hv2
      cases hv2
      rw [hc', hd']

theorem applyAll_congr (ws ws' : List SetCall) (T : String → Bytes → Option Bytes)
    (hcons : Consistent ws) (hmem : ∀ c, c ∈ ws' ↔ c ∈ ws) : applyAll ws' T = applyAll ws T := by
  have hcons' : Consistent ws' := fun c hc d hd =>
    hcons c ((hmem c).1 hc) d ((hmem d).1 hd)
  funext n k
  by_cases h : ∃ c ∈ ws, c.table = n ∧ c.key = k
  · obtain ⟨c, hc, hn, hk⟩ := h
    subst hn hk
    rw [applyAll_hit ws T c hcons hc, applyAll_hit ws' T c hcons' ((hmem c).2 hc)]
  · have hmiss : ∀ c ∈ ws, ¬ (c.table = n ∧ c.key = k) := fun c hc hnk => h ⟨c, hc, hnk⟩
    rw [applyAll_miss ws T n k hmiss,
      applyAll_miss ws' T n k (fun c hc => hmiss c ((hmem c).1 hc))]

/-! ## With writes accepted, the result of a handler does not depend on the state -/

theorem handleBasenameFilter_result (env : Env) (hset : ∀ h c, env.setError h c = none)
    (approve : Bool) (v : String) (p q : Probe) :
    (handleBasenameFilter env p approve v).1 = (handleBasenameFilter env q approve v).1 := by
  unfold handleBasenameFilter
  cases hk : StringToKey v env.BASENAME_FILTER_SIZE with
  | error e => rfl
  | ok key =>
    cases approve
    · simp [Table.Set_accepted env _ _ _ _ (hset _ _)]
    · simp [Table.Set_accepted env _ _ _ _ (hset _ _)]

theorem handleBasenameFilters_result (env : Env) (hset : ∀ h c, env.setError h c = none)
    (approve : Bool) (values : List String) (p q : Probe) :
    (handleBasenameFilters env p approve values).1
      = (handleBasenameFilters env q approve values).1 := by
  induction values generalizing p q with
  | nil => rfl
  | cons v vs ih =>
    have hstep := handleBasenameFilter_result env hset approve v p q
    rw [handleBasenameFilters, handleBasenameFilters]
    rcases hp : handleBasenameFilter env p approve v with ⟨o, p1⟩
    rcases hq : handleBasenameFilter env q approve v with ⟨o1, q1⟩
    rw [hp, hq] at hstep
    simp only at hstep
    subst hstep
    cases o
    · exact ih p1 q1
    · rfl
    · rfl

theorem handleFlagsFilters_result (env : Env) (hset : ∀ h c, env.setError h c = none)
    (approve : Bool) (values : List Int) (p : Probe) :
    (handleFlagsFilters env p approve values).1 = Outcome.nil := by
  unfold handleFlagsFilters
  by_cases hz : (accumulate values).value ≠ 0
  · simp only [hz, ne_eq, not_false_eq_true, if_true]
    cases approve
    · simp [Table.Set_accepted env _ _ _ _ (hset _ _)]
    · simp [Table.Set_accepted env _ _ _ _ (hset _ _)]
  · have hz0 : (accumulate values).value = 0 := by simpa using hz
    simp [hz0]

theorem approverField_result (env : Env) (hset : ∀ h c, env.setError h c = none)
    (field : String) (values : FilterValues)
    (hf : field = "open.basename" ∨ field = "open.filename" ∨ field = "open.flags")
    (p q : Probe) :
    (approverField env p field values).1 = (approverField env q field values).1 := by
  unfold approverField
  rcases hf with hf | hf | hf
  · subst hf
    simp only [String.reduceEq, if_false, if_true]
    cases hv : stringValues values with
    | none => rfl
    | some vs => exact handleBasenameFilters_result env hset true vs p q
  · subst hf
    simp only [String.reduceEq, if_false, if_true]
    cases hv : stringValues values with
    | none => rfl
    | some vs =>
      simp only []
      rw [handleFilenameFilters_eq, handleFilenameFilters_eq]
      exact handleBasenameFilters_result env hset true _ p q
  · subst hf
    simp only [String.reduceEq, if_false, if_true]
    cases hv : intValues values with
    | none => rfl
    | some vs =>
      simp only []
      rw [handleFlagsFilters_result env hset true vs p, handleFlagsFilters_result env hset true vs q]

theorem OnNewApprovers_nil_iff (env : Env) (hset : ∀ h c, env.setError h c = none)
    (a : Approvers)
    (hf : ∀ e ∈ a, e.1 = "open.basename" ∨ e.1 = "open.filename" ∨ e.1 = "open.flags")
    (p : Probe) :
    (OnNewApprovers env p a).1 = Outcome.nil
      ↔ ∀ e ∈ a, (approverField env Probe.empty e.1 e.2).1 = Outcome.nil := by
  induction a generalizing p with
  | nil => simp [OnNewApprovers]
  | cons e rest ih =>
    obtain ⟨field, values⟩ := e
    have hres := approverField_result env hset field values
      (hf _ (List.mem_cons_self _ _)) p Probe.empty
    have ih1 := fun q => ih (fun x hx => hf x (List.mem_cons_of_mem _ hx)) q
    rw [OnNewApprovers]
    rcases hb : approverField env p field values with ⟨o, p1⟩
    rw [hb] at hres
    simp only [List.mem_cons, forall_eq_or_imp, ← hres]
    cases o
    · simp only [true_and]
      exact ih1 p1
    · simp
    · simp

/-- C13: for an `Approvers` mapping (field names distinct) over the fields
`open.basename`, `open.filename` and `open.flags` on which the `OnNewApprovers`
callback succeeds, from any starting probe state: every other visiting order of
the fields that succeeds leaves the same tables, although `open.basename` and
`open.filename` both write into `open_basename_approvers`; when the kernel
accepts table writes every visiting order does succeed; and the tables left are
the starting ones with the `Set` calls of the entries applied. -/
theorem approvers_order_independent (env : Env) (p : Probe) (a visited : Approvers)
    (hperm : visited.Perm a) (hnodup : (a.map Prod.fst).Nodup)
    (hfields : ∀ e ∈ a, e.1 = "open.basename" ∨ e.1 = "open.filename" ∨ e.1 = "open.flags")
    (h : (OnNewApprovers env p a).1 = Outcome.nil) :
    ((OnNewApprovers env p visited).1 = Outcome.nil →
        (OnNewApprovers env p visited).2.tables = (OnNewApprovers env p a).2.tables)
    ∧ ((∀ h c, env.setError h c = none) → (OnNewApprovers env p visited).1 = Outcome.nil)
    ∧ (OnNewApprovers env p a).2.tables = applyAll (a.flatMap (entryWrites env)) p.tables := by
  have hfields' : ∀ e ∈ visited,
      e.1 = "open.basename" ∨ e.1 = "open.filename" ∨ e.1 = "open.flags" :=
    fun e he => hfields e (hperm.mem_iff.1 he)
  refine ⟨fun hv => ?_, fun hset => ?_, ?_⟩
  · rw [OnNewApprovers_nil env a hfields p h, OnNewApprovers_nil env visited hfields' p hv]
    exact applyAll_congr _ _ p.tables (plannedWrites_consistent env a hnodup)
      (fun c => (hperm.flatMap_right (entryWrites env)).mem_iff)
  · rw [OnNewApprovers_nil_iff env hset visited hfields' p]
    have ha := (OnNewApprovers_nil_iff env hset a hfields p).1 h
    exact fun e he => ha e (hperm.mem_iff.1 he)
  · rw [OnNewApprovers_nil env a hfields p h]

/-- C13, at `Approvers{"open.basename": ["passwd"], "open.filename":
["/etc/passwd", "/etc/shadow"], "open.flags": [1, 2]}` visited in that order and
in the reverse order, from the empty probe. -/
theorem approvers_order_independent_witness :
    (OnNewApprovers quietEnv Probe.empty
        [("open.flags", [FilterValue.int 1, FilterValue.int 2]),
         ("open.filename", [FilterValue.str "/etc/passwd", FilterValue.str "/etc/shadow"]),
         ("open.basename", [FilterValue.str "passwd"])]).2.tables
      = (OnNewApprovers quietEnv Probe.empty
        [("open.basename", [FilterValue.str "passwd"]),
         ("open.filename", [FilterValue.str "/etc/passwd", FilterValue.str "/etc/shadow"]),
         ("open.flags", [FilterValue.int 1, FilterValue.int 2])]).2.tables :=
  (approvers_order_independent quietEnv Probe.empty
    [("open.basename", [FilterValue.str "passwd"]),
     ("open.filename", [FilterValue.str "/etc/passwd", FilterValue.str "/etc/shadow"]),
     ("open.flags", [FilterValue.int 1, FilterValue.int 2])]
    [("open.flags", [FilterValue.int 1, FilterValue.int 2]),
     ("open.filename", [FilterValue.str "/etc/passwd", FilterValue.str "/etc/shadow"]),
     ("open.basename", [FilterValue.str "passwd"])]
    (by decide) (by decide) (by decide) (by decide)).1 (by decide)

/-! ## Dispatch and the capabilities of `vfs_open` -/

theorem vfsOpenFields_eq :
    vfsOpenFields = ["open.filename", "open.basename", "open.flags", "process.filename"] := by
  decide

theorem mem_vfsOpenFields (f : String) :
    f ∈ vfsOpenFields
      ↔ f = "open.filename" ∨ f = "open.basename" ∨ f = "open.flags"
          ∨ f = "process.filename" := by
  rw [vfsOpenFields_eq]
  simp

theorem not_mem_vfsOpenFields_iff (f : String) : f ∉ vfsOpenFields ↔ f ∉ knownFields := by
  rw [mem_vfsOpenFields]
  simp only [knownFields, List.mem_cons, List.mem_singleton, List.not_mem_nil, or_false]
  tauto

theorem approverField_empty (env : Env) (p : Probe) (f : String) (hf : f ∈ vfsOpenFields) :
    approverField env p f [] = (Outcome.nil, p) := by
  rcases (mem_vfsOpenFields f).1 hf with h | h | h | h <;> subst h
  · simp [approverField, stringValues, handleFilenameFilters, filenameLoop]
  · simp [approverField, stringValues, handleBasenameFilters]
  · simp [approverField, intValues, handleFlagsFilters, accumulate]
  · simp [approverField, stringValues, handleProcessFilename, processLoop]

theorem OnNewDiscarders_known (env : Env) (p : Probe) (f : String) (hf : f ∈ vfsOpenFields) :
    ∃ v, OnNewDiscarders env p ⟨f, v⟩ ≠ (Outcome.error "field unknown", p) := by
  rcases (mem_vfsOpenFields f).1 hf with h | h | h | h <;> subst h
  · exact ⟨FilterValue.int 0, by
      rw [OnNewDiscarders_panics env p _ (by decide)]; simp⟩
  · exact ⟨FilterValue.int 0, by
      rw [OnNewDiscarders_panics env p _ (by decide)]; simp⟩
  · exact ⟨FilterValue.str "", by
      rw [OnNewDiscarders_panics env p _ (by decide)]; simp⟩
  · exact ⟨FilterValue.int 0, by
      rw [OnNewDiscarders_panics env p _ (by decide)]; simp⟩

/-- C14: on the `vfs_open` hook point the dispatch matches the capabilities
declared for event type `open`. The declared field names are `open.filename`,
`open.basename`, `open.flags` and `process.filename`; a field name reaches the
`field unknown` default branch of `OnNewDiscarders`, and of `OnNewApprovers`,
exactly when it is not declared; among the declared fields `open.flags` alone has
the bitmask value type, and it is the one routed to `handleFlagsFilters`, the
other three being routed to `handleFilenameFilters`, `handleBasenameFilters` and
`handleProcessFilename`. -/
theorem dispatch_matches_capabilities (env : Env) (p : Probe) :
    (∀ f : String, f ∈ vfsOpenFields
        ↔ f = "open.filename" ∨ f = "open.basename" ∨ f = "open.flags"
            ∨ f = "process.filename")
    ∧ (∀ f : String, f ∉ vfsOpenFields
        ↔ ∀ v, OnNewDiscarders env p ⟨f, v⟩ = (Outcome.error "field unknown", p))
    ∧ (∀ f : String, f ∉ vfsOpenFields
        ↔ ∀ vs, OnNewApprovers env p [(f, vs)] = (Outcome.error "field unknown", p))
    ∧ (∀ (f : String) (cap : Capability), (f, cap) ∈ capabilitiesOf "vfs_open" "open" →
        (FieldValueType.BitmaskValueType ∈ cap.FieldValueTypes ↔ f = "open.flags"))
    ∧ (∀ vs : List Int,
        OnNewApprovers env p [("open.flags", vs.map FilterValue.int)]
          = handleFlagsFilters env p true vs)
    ∧ (∀ v : Int,
        OnNewDiscarders env p ⟨"open.flags", FilterValue.int v⟩
          = handleFlagsFilters env p false [v])
    ∧ (∀ vs : List String,
        OnNewApprovers env p [("open.filename", vs.map FilterValue.str)]
            = handleFilenameFilters env p true vs
        ∧ OnNewApprovers env p [("open.basename", vs.map FilterValue.str)]
            = handleBasenameFilters env p true vs
        ∧ OnNewApprovers env p [("process.filename", vs.map FilterValue.str)]
            = handleProcessFilename env p true vs)
    ∧ (∀ v : String,
        OnNewDiscarders env p ⟨"open.filename", FilterValue.str v⟩
            = handleFilenameFilters env p false [v]
        ∧ OnNewDiscarders env p ⟨"open.basename", FilterValue.str v⟩
            = handleBasenameFilters env p false [v]
        ∧ OnNewDiscarders env p ⟨"process.filename", FilterValue.str v⟩
            = handleProcessFilename env p false [v]) := by
  refine ⟨mem_vfsOpenFields, fun f => ⟨fun hf v => ?_, fun h hf => ?_⟩,
    fun f => ⟨fun hf vs => ?_, fun h hf => ?_⟩, ?_, fun vs => ?_, fun v => ?_, fun vs => ?_,
    fun v => ?_⟩
  · have hunk := (not_mem_vfsOpenFields_iff f).1 hf
    simp only [knownFields, List.mem_cons, List.mem_singleton, not_or, List.not_mem_nil,
      or_false] at hunk
    simp [OnNewDiscarders, hunk.1, hunk.2.1, hunk.2.2.1, hunk.2.2.2]
  · obtain ⟨v, hv⟩ := OnNewDiscarders_known env p f hf
    exact hv (h v)
  · rw [OnNewApprovers_single]
    exact approverField_unknown env p f vs ((not_mem_vfsOpenFields_iff f).1 hf)
  · have hnil := approverField_empty env p f hf
    have herr := h []
    rw [OnNewApprovers_single, hnil] at herr
    simp at herr
  · intro f cap hmem
    have hcases : (f, cap) ∈ capabilitiesOf "vfs_open" "open"
        → (f, cap) = ("open.filename",
              ⟨PolicyFlag.BASENAME_FLAG, [FieldValueType.ScalarValueType]⟩)
          ∨ (f, cap) = ("open.basename",
              ⟨PolicyFlag.BASENAME_FLAG, [FieldValueType.ScalarValueType]⟩)
          ∨ (f, cap) = ("open.flags", ⟨PolicyFlag.FLAGS_FLAG,
              [FieldValueType.ScalarValueType, FieldValueType.BitmaskValueType]⟩)
          ∨ (f, cap) = ("process.filename",
              ⟨PolicyFlag.PROCESS_INODE, [FieldValueType.ScalarValueType]⟩) := by
      rw [show capabilitiesOf "vfs_open" "open"
          = [("open.filename", ⟨PolicyFlag.BASENAME_FLAG, [FieldValueType.ScalarValueType]⟩),
             ("open.basename", ⟨PolicyFlag.BASENAME_FLAG, [FieldValueType.ScalarValueType]⟩),
             ("open.flags", ⟨PolicyFlag.FLAGS_FLAG,
                [FieldValueType.ScalarValueType, FieldValueType.BitmaskValueType]⟩),
             ("process.filename",
                ⟨PolicyFlag.PROCESS_INODE, [FieldValueType.ScalarValueType]⟩)] from by decide]
      intro hm
      simpa using hm
    rcases hcases hmem with h | h | h | h <;> cases h <;> simp
  · rw [OnNewApprovers_single]
    exact approverField_flags env p vs
  · exact OnNewDiscarders_flags env p v
  · refine ⟨?_, ?_, ?_⟩
    · rw [OnNewApprovers_single]
      exact approverField_filename env p vs
    · rw [OnNewApprovers_single]
      exact approverField_basename env p vs
    · rw [OnNewApprovers_single]
      have h := stringValues_map_str vs
      simp [approverField, h]
  · refine ⟨?_, ?_, ?_⟩
    · simp [OnNewDiscarders, FilterValue.asString]
    · simp [OnNewDiscarders, FilterValue.asString]
    · simp [OnNewDiscarders, FilterValue.asString]

/-- C14, at the undeclared field `open.mode` (it reaches the default branch) and
at the declared entry of `open.flags` (it has the bitmask value type). -/
theorem dispatch_matches_capabilities_witness :
    OnNewDiscarders quietEnv Probe.empty ⟨"open.mode", FilterValue.int 1⟩
        = (Outcome.error "field unknown", Probe.empty)
    ∧ (FieldValueType.BitmaskValueType
          ∈ [FieldValueType.ScalarValueType, FieldValueType.BitmaskValueType]
        ↔ "open.flags" = "open.flags") :=
  ⟨(dispatch_matches_capabilities quietEnv Probe.empty).2.1 "open.mode" |>.1 (by decide) _,
   (dispatch_matches_capabilities quietEnv Probe.empty).2.2.2.1 "open.flags"
      ⟨PolicyFlag.FLAGS_FLAG,
        [FieldValueType.ScalarValueType, FieldValueType.BitmaskValueType]⟩ (by decide)⟩

end OpenProbe
